import Mathlib

/-!
Shallow embedding of `chemprop/train/evaluate.py` (functions
`select_valid_values`, `_evaluate_predictions`, `evaluate_predictions`) and
proofs about the claims of the specification.

Modelling conventions:
* Python floats are idealised as rationals (`ℚ`); the float `nan` produced by
  `float('nan')` / `np.nanmean` is an explicit constructor of `FVal`.
* A prediction cell is either a scalar or (multiclass) a vector of per-class
  scores (`PVal`).  A target cell is `Option ℚ`, `none` being Python `None`.
* Fallible operations (list indexing, `len()` on a non-sequence) run in
  `Except Err`; `Err.indexError` models Python's `IndexError` and
  `Err.typeError` models the `TypeError` raised by `len()` on a float.
* Metric functions are external collaborators: a `Resolver` maps a metric name
  to a total function from (targets, predictions, optional labels) to a value.
* The optional logger is a boolean (`hasLogger`): warnings go to
  `LogState.loggerLines` when it is present and to `LogState.printedLines`
  (Python `print`) when it is absent, mirroring
  `info = logger.info if logger is not None else print`.
* Python dicts (`defaultdict(list)`, dict comprehensions, `dict.update`) are
  association lists with insertion-order semantics (`Dict`).
-/

/-- Numeric values appearing in the Prediction Grid: a scalar prediction, or
(for multiclass) a vector of per-class scores. -/
inductive PVal where
  | scalar (q : ℚ)
  | vec (qs : List ℚ)
deriving DecidableEq

/-- A metric value: a number or the floating-point NaN marker. -/
inductive FVal where
  | num (q : ℚ)
  | nan
deriving DecidableEq

/-- Runtime errors the embedded code can raise. -/
inductive Err where
  | indexError
  | typeError
deriving DecidableEq

/-- Signature of a resolved metric function: targets, predictions, optional
class-label list (multiclass only) to a value. -/
abbrev MetricFn := List ℚ → List PVal → Option (List Nat) → FVal

/-- The metric registry collaborator (`get_metric_func`): name to callable. -/
abbrev Resolver := String → MetricFn

/-- Python list indexing `l[i]`, raising `IndexError` out of range. -/
def getE {α : Type} (l : List α) (i : Nat) : Except Err α :=
  match l.get? i with
  | some x => Except.ok x
  | none => Except.error Err.indexError

/-- Functional view of an in-place update of entry `k` of a list. -/
def modifyAt {α : Type} (f : α → α) : Nat → List α → List α
  | _, [] => []
  | 0, x :: xs => f x :: xs
  | n + 1, x :: xs => x :: modifyAt f n xs

/-- Python `for k in range(n)` with loop body `step`, threading state through
`Except` (the body runs for `k = 0, 1, ..., n-1` in order). -/
def forRangeM {σ : Type} (step : σ → Nat → Except Err σ) (init : Except Err σ) :
    Nat → Except Err σ
  | 0 => init
  | n + 1 => (forRangeM step init n).bind (fun st => step st n)

/-- Body of the double loop of `select_valid_values` at task `i`, item `j`:
skip the cell when the target is `None`, otherwise route the
prediction/target pair into group `j` (`metric_by_row`) or group `i`. -/
def svvStep (preds : List (List PVal)) (targets : List (List (Option ℚ)))
    (mbr : Bool) (i : Nat) (st : List (List PVal) × List (List ℚ)) (j : Nat) :
    Except Err (List (List PVal) × List (List ℚ)) := do
  let trow ← getE targets j
  let tcell ← getE trow i
  match tcell with
  | none => pure st
  | some t => do
      let prow ← getE preds j
      let pcell ← getE prow i
      let index := if mbr then j else i
      pure (modifyAt (fun g => g ++ [pcell]) index st.1,
            modifyAt (fun g => g ++ [t]) index st.2)

/-- `select_valid_values` from `evaluate.py`: filter out cells whose target is
`None`, grouping by task (`metric_by_row = false`, `num_tasks` groups) or by
item (`metric_by_row = true`, `len(preds)` groups). -/
def select_valid_values (preds : List (List PVal)) (targets : List (List (Option ℚ)))
    (num_tasks : Nat) (metric_by_row : Bool) :
    Except Err (List (List PVal) × List (List ℚ)) :=
  let num_values := if metric_by_row then preds.length else num_tasks
  forRangeM
    (fun st i =>
      forRangeM (fun st2 j => svvStep preds targets metric_by_row i st2 j)
        (Except.ok st) preds.length)
    (Except.ok (List.replicate num_values [], List.replicate num_values []))
    num_tasks

/-- Insertion-ordered dictionary with string keys (Python `dict`). -/
abbrev Dict (α : Type) := List (String × α)

/-- Python `d.get(k)`: first (and only) binding of `k`. -/
def lookupA {α : Type} (k : String) : Dict α → Option α
  | [] => none
  | (k2, v) :: rest => if k2 = k then some v else lookupA k rest

/-- Python dict assignment `d[k] = v`: overwrite in place, else append. -/
def assocSet {α : Type} (d : Dict α) (k : String) (v : α) : Dict α :=
  match d with
  | [] => [(k, v)]
  | (k2, v2) :: rest =>
      if k2 = k then (k2, v) :: rest else (k2, v2) :: assocSet rest k v

/-- `defaultdict(list)` append: `d[k].append(v)` (creates `[v]` if absent). -/
def ddAppend (d : Dict (List FVal)) (k : String) (v : FVal) : Dict (List FVal) :=
  match d with
  | [] => [(k, [v])]
  | (k2, vs) :: rest =>
      if k2 = k then (k2, vs ++ [v]) :: rest else (k2, vs) :: ddAppend rest k v

/-- Python `d1.update(d2)`. -/
def dictUpdate {α : Type} (d1 d2 : Dict α) : Dict α :=
  d2.foldl (fun d p => assocSet d p.1 p.2) d1

/-- Key under which a metric is recorded:
`f-string {metric}{"-by-row" if metric_by_row else ""}`. -/
def metricKey (metric_by_row : Bool) (m : String) : String :=
  if metric_by_row then m ++ "-by-row" else m

/-- The dict comprehension building `metric_to_func`; the value is the metric
name handed to the resolver (resolution itself is the external collaborator,
applied at call time). -/
def mkMetricToFunc (metrics : List String) (metric_by_row : Bool) : Dict String :=
  metrics.foldl (fun d m => assocSet d (metricKey metric_by_row m) m) []

/-- Python `len` on a prediction cell (a float has no `len()`). -/
def pvalLen : PVal → Except Err Nat
  | PVal.scalar _ => Except.error Err.typeError
  | PVal.vec qs => Except.ok qs.length

/-- The optional `labels` argument: for multiclass,
`list(range(len(valid_preds[i][0])))`; otherwise omitted. -/
def labelsFor (dt : String) (vp : List PVal) : Except Err (Option (List Nat)) :=
  if dt = "multiclass" then do
    let p0 ← getE vp 0
    let n ← pvalLen p0
    pure (some (List.range n))
  else pure none

/-- One invocation `metric_func(valid_targets[i], valid_preds[i], labels?)`. -/
def metricCall (M : Resolver) (dt : String) (mname : String)
    (vt : List ℚ) (vp : List PVal) : Except Err FVal :=
  (labelsFor dt vp).map (fun lab => M mname vt vp lab)

/-- Where warning strings have gone: the logger's lines and the console. -/
structure LogState where
  loggerLines : List String
  printedLines : List String
deriving DecidableEq

/-- `info = logger.info if logger is not None else print`. -/
def info (hasLogger : Bool) (s : String) (ls : LogState) : LogState :=
  if hasLogger then { ls with loggerLines := ls.loggerLines ++ [s] }
  else { ls with printedLines := ls.printedLines ++ [s] }

def warnTargets : String := "Warning: Found a task with targets all 0s or all 1s"

def warnPreds : String := "Warning: Found a task with predictions all 0s or all 1s"

/-- `all(target == q for target in vt)`. -/
def allEqB (vt : List ℚ) (q : ℚ) : Bool := vt.all (fun t => t == q)

/-- Python `pred == q` where `pred` may be a float or a list (a list never
equals a number). -/
def pvalEqNum (p : PVal) (q : ℚ) : Bool :=
  match p with
  | PVal.scalar x => x == q
  | PVal.vec _ => false

/-- `all(pred == q for pred in vp)`. -/
def allPredEqB (vp : List PVal) (q : ℚ) : Bool := vp.all (fun p => pvalEqNum p q)

/-- `for metric in metric_to_func: results[metric].append(g metric)`: one
value appended under every key of `metric_to_func`, in key order. -/
def appendAllF (mtf : Dict String) (g : String → FVal) (d : Dict (List FVal)) :
    Dict (List FVal) :=
  mtf.foldl (fun d2 p => ddAppend d2 p.1 (g p.2)) d

/-- The metric-invocation loop
`for metric, metric_func in metric_to_func.items(): results[metric].append(...)`. -/
def appendMetricsM (M : Resolver) (dt : String) (mtf : Dict String)
    (vt : List ℚ) (vp : List PVal) (d : Dict (List FVal)) :
    Except Err (Dict (List FVal)) :=
  mtf.foldlM (fun d2 p => do
    let v ← metricCall M dt p.2 vt vp
    pure (ddAppend d2 p.1 v)) d

/-- Tail of the loop body of `_evaluate_predictions`: the empty-group `continue`
and the metric-invocation loop. -/
def groupTail (M : Resolver) (dt : String) (mtf : Dict String)
    (vps : List (List PVal)) (vts : List (List ℚ)) (i : Nat)
    (d : Dict (List FVal)) (ls : LogState) :
    Except Err (Dict (List FVal) × LogState) := do
  let vt ← getE vts i
  if vt.length = 0 then pure (d, ls)
  else do
    let vp ← getE vps i
    let d2 ← appendMetricsM M dt mtf vt vp d
    pure (d2, ls)

/-- Body of the loop `for i in range(len(preds))` of `_evaluate_predictions`:
classification degeneracy checks (with warnings in task-axis mode), NaN
recording for degenerate groups, then `groupTail`. -/
def groupStep (M : Resolver) (dt : String) (mtf : Dict String) (mbr : Bool)
    (hasLogger : Bool) (vps : List (List PVal)) (vts : List (List ℚ))
    (st : Dict (List FVal) × LogState) (i : Nat) :
    Except Err (Dict (List FVal) × LogState) := do
  let (d, ls) := st
  if dt = "classification" then do
    let vt ← getE vts i
    let nan1 := allEqB vt 0 || allEqB vt 1
    let ls1 := if nan1 && !mbr then info hasLogger warnTargets ls else ls
    let vp ← getE vps i
    let nan2 := allPredEqB vp 0 || allPredEqB vp 1
    let ls2 := if nan2 && !mbr then info hasLogger warnPreds ls1 else ls1
    if nan1 || nan2 then
      pure (appendAllF mtf (fun _ => FVal.nan) d, ls2)
    else groupTail M dt mtf vps vts i d ls2
  else groupTail M dt mtf vps vts i d ls

/-- Skip-NaN mean `np.nanmean` (mean of an empty or all-NaN list is NaN). -/
def nanmeanF (vs : List FVal) : FVal :=
  let nums := vs.filterMap (fun v =>
    match v with
    | FVal.num q => some q
    | FVal.nan => none)
  if nums.length = 0 then FVal.nan else FVal.num (nums.sum / (nums.length : ℚ))

/-- The empty-grid return
`{metric: [float('nan')] * num_tasks for metric in metrics}`
(note: unsuffixed metric names, even when `metric_by_row` is set). -/
def emptyResult (metrics : List String) (num_tasks : Nat) : Dict (List FVal) :=
  metrics.foldl (fun d m => assocSet d m (List.replicate num_tasks FVal.nan)) []

/-- `_evaluate_predictions` from `evaluate.py`. -/
def _evaluate_predictions (M : Resolver) (preds : List (List PVal))
    (targets : List (List (Option ℚ))) (num_tasks : Nat) (metrics : List String)
    (dataset_type : String) (metric_by_row : Bool) (hasLogger : Bool)
    (ls0 : LogState) : Except Err (Dict (List FVal) × LogState) :=
  if preds.length = 0 then
    Except.ok (emptyResult metrics num_tasks, ls0)
  else do
    let mtf := mkMetricToFunc metrics metric_by_row
    let (validPreds, validTargets) ←
      select_valid_values preds targets num_tasks metric_by_row
    let (d, ls) ← forRangeM
      (groupStep M dataset_type mtf metric_by_row hasLogger validPreds validTargets)
      (Except.ok ([], ls0)) preds.length
    let d2 := if metric_by_row then d.map (fun p => (p.1, [nanmeanF p.2])) else d
    pure (d2, ls)

/-- `evaluate_predictions` from `evaluate.py`: always the task-axis pass;
when `metric_by_row` is set, additionally the row-axis pass merged in by
`dict.update`. -/
def evaluate_predictions (M : Resolver) (preds : List (List PVal))
    (targets : List (List (Option ℚ))) (num_tasks : Nat) (metrics : List String)
    (dataset_type : String) (metric_by_row : Bool) (hasLogger : Bool) :
    Except Err (Dict (List FVal) × LogState) := do
  let (r1, ls1) ← _evaluate_predictions M preds targets num_tasks metrics
    dataset_type false hasLogger ⟨[], []⟩
  if metric_by_row then do
    let (r2, ls2) ← _evaluate_predictions M preds targets num_tasks metrics
      dataset_type true hasLogger ls1
    pure (dictUpdate r1 r2, ls2)
  else pure (r1, ls1)

/-- A concrete metric function used for closed counterexamples/witnesses. -/
def constMetric : Resolver := fun _ _ _ _ => FVal.num 0

/-! ## Derived descriptions used to characterise the loops

The definitions below are not part of the embedded program; they are
specification-side descriptions (direct formulas for what the loops of
`select_valid_values` and `_evaluate_predictions` compute), proved equal to
the embedded code by the lemmas further down. -/

/-- Target cell `(j, t)` of the Target Grid, with `None` out of range. -/
def tcellD (targets : List (List (Option ℚ))) (j t : Nat) : Option ℚ :=
  (targets.getD j []).getD t none

/-- Prediction cell `(j, t)` of the Prediction Grid (default value arbitrary;
it is never reached on well-shaped grids). -/
def pcellD (preds : List (List PVal)) (j t : Nat) : PVal :=
  (preds.getD j []).getD t (PVal.scalar 0)

/-- Task-axis groups as the specification describes them: group `t` contains,
in item order, every prediction/target pair at task `t` whose target is
present. -/
def specGroupsByTask (preds : List (List PVal)) (targets : List (List (Option ℚ)))
    (nt : Nat) : List (List PVal) × List (List ℚ) :=
  ((List.range nt).map (fun t => (List.range preds.length).filterMap (fun j =>
      match tcellD targets j t with
      | some _ => some (pcellD preds j t)
      | none => none)),
   (List.range nt).map (fun t => (List.range preds.length).filterMap (fun j =>
      tcellD targets j t)))

/-- Row-axis groups as the specification describes them: group `j` contains,
in task order, every prediction/target pair of item `j` whose target is
present. -/
def specGroupsByRow (preds : List (List PVal)) (targets : List (List (Option ℚ)))
    (nt : Nat) : List (List PVal) × List (List ℚ) :=
  ((List.range preds.length).map (fun j => (List.range nt).filterMap (fun t =>
      match tcellD targets j t with
      | some _ => some (pcellD preds j t)
      | none => none)),
   (List.range preds.length).map (fun j => (List.range nt).filterMap (fun t =>
      tcellD targets j t)))

/-- Tail of `groupContribution`: the empty-group skip and the per-metric value
of a computed group. -/
def contribTail (M : Resolver) (dt : String) (vts : List (List ℚ))
    (vps : List (List PVal)) (i : Nat) : Except Err (Option (String → FVal)) := do
  let vt ← getE vts i
  if vt.length = 0 then pure none
  else do
    let vp ← getE vps i
    let lab ← labelsFor dt vp
    pure (some (fun mn => M mn vt vp lab))

/-- Dictionary-free description of one iteration of the aggregation loop:
`none` means the group is skipped (no value appended under any key), `some g`
means the value `g mname` is appended under every key of `metric_to_func`. -/
def groupContribution (M : Resolver) (dt : String) (vts : List (List ℚ))
    (vps : List (List PVal)) (i : Nat) : Except Err (Option (String → FVal)) :=
  if dt = "classification" then do
    let vt ← getE vts i
    let vp ← getE vps i
    if (allEqB vt 0 || allEqB vt 1) || (allPredEqB vp 0 || allPredEqB vp 1) then
      pure (some (fun _ => FVal.nan))
    else contribTail M dt vts vps i
  else contribTail M dt vts vps i

/-- Warnings emitted by one iteration of the aggregation loop (out-of-range
reads default to `[]`; the value only matters on non-erroring iterations). -/
def groupWarnings (dt : String) (mbr : Bool) (vts : List (List ℚ))
    (vps : List (List PVal)) (i : Nat) : List String :=
  if dt = "classification" ∧ mbr = false then
    (if allEqB (vts.getD i []) 0 || allEqB (vts.getD i []) 1 then [warnTargets]
     else []) ++
    (if allPredEqB (vps.getD i []) 0 || allPredEqB (vps.getD i []) 1 then
      [warnPreds] else [])
  else []

/-- Contributions of the groups `0, ..., n-1` in order (erroring exactly when
the loop errors, for a non-empty `metric_to_func`). -/
def contribsUpTo (M : Resolver) (dt : String) (vts : List (List ℚ))
    (vps : List (List PVal)) : Nat → Except Err (List (String → FVal))
  | 0 => Except.ok []
  | n + 1 => do
      let l ← contribsUpTo M dt vts vps n
      let c ← groupContribution M dt vts vps n
      pure (l ++ c.toList)

/-- Warnings of the groups `0, ..., n-1` in order. -/
def warnsUpTo (dt : String) (mbr : Bool) (vts : List (List ℚ))
    (vps : List (List PVal)) : Nat → List String
  | 0 => []
  | n + 1 => warnsUpTo dt mbr vts vps n ++ groupWarnings dt mbr vts vps n

/-- Error behaviour of one loop iteration when `metric_to_func` is empty (no
metric is ever invoked, so only the group-list reads can fail). -/
def groupTouch (dt : String) (vts : List (List ℚ)) (vps : List (List PVal))
    (i : Nat) : Except Err Unit :=
  if dt = "classification" then do
    let _ ← getE vts i
    let _ ← getE vps i
    pure ()
  else do
    let vt ← getE vts i
    if vt.length = 0 then pure ()
    else do
      let _ ← getE vps i
      pure ()

/-- Error behaviour of the loop over groups `0, ..., n-1` when
`metric_to_func` is empty. -/
def touchUpTo (dt : String) (vts : List (List ℚ)) (vps : List (List PVal)) :
    Nat → Except Err Unit
  | 0 => Except.ok ()
  | n + 1 => do
      let _ ← touchUpTo dt vts vps n
      groupTouch dt vts vps n

/-- How a group contribution acts on the accumulated results dictionary:
an error propagates, a skipped group leaves the dictionary unchanged, and a
contributing group appends its per-metric value under every key. -/
def applyContrib (mtf : Dict String) (d : Dict (List FVal)) (ls : LogState) :
    Except Err (Option (String → FVal)) →
      Except Err (Dict (List FVal) × LogState)
  | Except.error e => Except.error e
  | Except.ok none => Except.ok (d, ls)
  | Except.ok (some g) => Except.ok (appendAllF mtf g d, ls)

/-- Route a list of warning strings through `info` in order. -/
def logAll (hl : Bool) (ws : List String) (ls : LogState) : LogState :=
  ws.foldl (fun a s => info hl s a) ls

/-! ## Code-bug evaluations and counterexamples

The aggregation loop of `_evaluate_predictions` is
`for i in range(len(preds))`, but in task-axis mode the groups produced by
`select_valid_values` are indexed by task (`num_tasks` of them).  So in
task-axis mode the code indexes the group lists with item indices: it raises
`IndexError` whenever the item count exceeds `num_tasks`, and silently skips
the groups of tasks numbered `len(preds)` and above whenever the item count is
smaller than `num_tasks`.  The theorems in this section exhibit both failure
modes on concrete inputs. -/

/-- C1: the claim (one task-axis entry per task with at least one valid
target) is the documented intent (`:return: ... a list of values for each
task`), but the code loops over the item count instead of the task count.
On the specification's own §8 worked example (three items, one task, all
groups well-formed) evaluation raises `IndexError` instead of returning a
one-entry sequence per metric: at `i = 1` the loop indexes the
single-element group list out of range. -/
theorem C1_task_axis_loop_indexerror : ∀ (M : Resolver) (hl : Bool),
    evaluate_predictions M
      [[PVal.scalar (9/10)], [PVal.scalar (2/10)], [PVal.scalar (8/10)]]
      [[some 1], [some 0], [none]] 1 ["accuracy"] "classification" false hl
      = Except.error Err.indexError := by
  intro M hl
  with_unfolding_all rfl

/-- C4: with one item and two tasks, both task groups have all valid targets
equal to `0` (degenerate), so the claim requires a NaN entry for each of the
two groups under the metric key `auc`.  The code processes only group `0`
(the loop ranges over the item count `1`), so the result sequence is
`[NaN]`, not `[NaN, NaN]`: the second degenerate group records nothing.
The result is independent of the resolver `M`, which also shows no metric
function was invoked on the processed degenerate group. -/
theorem C4_degenerate_group_skipped : ∀ (M : Resolver),
    _evaluate_predictions M [[PVal.scalar (1/2), PVal.scalar (1/2)]]
      [[some 0, some 0]] 2 ["auc"] "classification" false true ⟨[], []⟩
      = Except.ok ([("auc", [FVal.nan])], ⟨[warnTargets], []⟩) := by
  intro M
  with_unfolding_all rfl

/-- C2 counterexample: `num_tasks = 1` disagrees with the per-item width `2`
of both grids, yet `select_valid_values` does not fail at all — it silently
succeeds, using only the first column.  There is no `ShapeError` anywhere in
the code. -/
theorem C2_counterexample_silent_success :
    select_valid_values [[PVal.scalar (1/2), PVal.scalar (1/2)]]
      [[some 1, some 1]] 1 false
      = Except.ok ([[PVal.scalar (1/2)]], [[1]]) := rfl

/-- C3 counterexample: with an empty Prediction Grid and `metric_by_row`
true, the row-axis pass takes the empty-grid early return, which builds its
dictionary from the *unsuffixed* metric names; the merge therefore
overwrites the task-axis entry and the Result Mapping's key set is
`["auc"]`, missing the row-axis key `"auc-by-row"` that the claim
requires. -/
theorem C3_counterexample_no_by_row_key :
    (evaluate_predictions constMetric [] [] 1 ["auc"] "classification" true
        true).map (fun r => r.1.map Prod.fst)
      = Except.ok ["auc"] := rfl

/-- C6 counterexample: a non-empty input (one item) for a regression dataset
whose single target is absent.  The row-axis group of the only item is
empty, so it is skipped with no value appended; the metric key is then never
created and the row-axis reduction has nothing to average, so the Result
Mapping has no `"rmse-by-row"` entry at all — not a one-element `[NaN]`
sequence as the claim requires. -/
theorem C6_counterexample_missing_entry :
    (evaluate_predictions constMetric [[PVal.scalar (1/2)]] [[none]] 1
        ["rmse"] "regression" true true).map
      (fun r => lookupA "rmse-by-row" r.1)
      = Except.ok none := rfl

/-- C8 counterexample: classification input with two tasks but one item.
Task group `1` has zero valid targets, so by the claim it should append a
NaN under the key `auc`; but the loop ranges over the item count `1` and
never processes group `1`, so the `auc` sequence has a single entry (from
the degenerate group `0`) instead of two. -/
theorem C8_counterexample_group_dropped :
    (_evaluate_predictions constMetric
        [[PVal.scalar (1/2), PVal.scalar (1/2)]] [[some 0, none]] 2 ["auc"]
        "classification" false true ⟨[], []⟩).map (fun r => lookupA "auc" r.1)
      = Except.ok (some [FVal.nan]) := rfl

/-! ## Dictionary lemmas -/

theorem lookupA_assocSet {α : Type} (d : Dict α) (k2 k : String) (v : α) :
    lookupA k (assocSet d k2 v) = if k2 = k then some v else lookupA k d := by
  induction d with
  | nil => simp [assocSet, lookupA]
  | cons p rest ih =>
      obtain ⟨k3, v3⟩ := p
      simp only [assocSet]
      by_cases h3 : k3 = k2
      · subst h3
        by_cases hk : k3 = k <;> simp [lookupA, hk]
      · by_cases hk3 : k3 = k
        · subst hk3
          have hk2 : ¬ k2 = k3 := fun h => h3 h.symm
          simp [lookupA, h3, hk2]
        · simp [lookupA, h3, hk3, ih]

theorem mem_assocSet {α : Type} {d : Dict α} {k : String} {v : α} {p : String × α}
    (h : p ∈ assocSet d k v) : p ∈ d ∨ p = (k, v) := by
  induction d with
  | nil => simpa [assocSet] using h
  | cons q rest ih =>
      obtain ⟨k3, v3⟩ := q
      by_cases h3 : k3 = k
      · subst h3
        simp [assocSet] at h
        rcases h with h | h
        · right; simpa using h
        · left; simp [h]
      · simp [assocSet, h3] at h
        rcases h with h | h
        · left; simp [h]
        · rcases ih h with h2 | h2
          · left; simp [h2]
          · right; exact h2

theorem lookupA_mem {α : Type} {d : Dict α} {k : String} {v : α}
    (h : lookupA k d = some v) : (k, v) ∈ d := by
  induction d with
  | nil => simp [lookupA] at h
  | cons q rest ih =>
      obtain ⟨k3, v3⟩ := q
      by_cases h3 : k3 = k
      · subst h3
        simp [lookupA] at h
        simp [h]
      · simp [lookupA, h3] at h
        simp [ih h]

theorem lookupA_foldl_assocSet {α : Type} (key : String → String) (val : String → α)
    (l : List String) (m : String) :
    ∀ (d : Dict α),
      (∀ x ∈ l, key x = key m → val x = val m) →
      (m ∈ l ∨ lookupA (key m) d = some (val m)) →
      lookupA (key m) (l.foldl (fun d2 x => assocSet d2 (key x) (val x)) d)
        = some (val m) := by
  induction l with
  | nil =>
      intro d _ hd
      rcases hd with hd | hd
      · simp at hd
      · simpa using hd
  | cons x rest ih =>
      intro d hcomp hd
      simp only [List.foldl_cons]
      apply ih
      · intro y hy hkey
        exact hcomp y (List.mem_cons_of_mem x hy) hkey
      · by_cases hmx : m = x
        · subst hmx
          right
          rw [lookupA_assocSet]
          simp [hcomp m (List.mem_cons_self m rest) rfl]
        · rcases hd with hd | hd
          · rcases List.mem_cons.mp hd with h | h
            · exact absurd h hmx
            · left; exact h
          · right
            rw [lookupA_assocSet]
            by_cases hk : key x = key m
            · simp [hk, hcomp x (List.mem_cons_self x rest) hk]
            · simp [hk, hd]

theorem lookupA_dictUpdate {α : Type} (m : String) (v : α) :
    ∀ (d2 d1 : Dict α),
      (∀ p ∈ d2, p.1 = m → p.2 = v) →
      ((∃ p ∈ d2, p.1 = m) ∨ lookupA m d1 = some v) →
      lookupA m (dictUpdate d1 d2) = some v := by
  intro d2
  induction d2 with
  | nil =>
      intro d1 _ hd
      rcases hd with ⟨p, hp, _⟩ | hd
      · simp at hp
      · simpa [dictUpdate] using hd
  | cons q rest ih =>
      intro d1 hcomp hd
      simp only [dictUpdate, List.foldl_cons]
      have ihapp := ih (assocSet d1 q.1 q.2)
        (fun p hp => hcomp p (List.mem_cons_of_mem q hp))
      have step : lookupA m (assocSet d1 q.1 q.2) = some v ∨
          ((¬ q.1 = m) ∧ lookupA m (assocSet d1 q.1 q.2) = lookupA m d1) := by
        by_cases hq : q.1 = m
        · left
          rw [lookupA_assocSet]
          simp [hq, hcomp q (List.mem_cons_self q rest) hq]
        · right
          refine ⟨hq, ?_⟩
          rw [lookupA_assocSet]
          simp [hq]
      rcases hd with ⟨p, hp, hpm⟩ | hd
      · rcases List.mem_cons.mp hp with h | h
        · subst h
          rcases step with h2 | ⟨hq, _⟩
          · exact ihapp (Or.inr h2)
          · exact absurd hpm hq
        · exact ihapp (Or.inl ⟨p, h, hpm⟩)
      · rcases step with h2 | ⟨_, h2⟩
        · exact ihapp (Or.inr h2)
        · exact ihapp (Or.inr (h2.trans hd))

theorem emptyResult_lookup {metrics : List String} {nt : Nat} {m : String}
    (hm : m ∈ metrics) :
    lookupA m (emptyResult metrics nt) = some (List.replicate nt FVal.nan) := by
  have := lookupA_foldl_assocSet (fun x => x) (fun _ => List.replicate nt FVal.nan)
    metrics m [] (by intro x _ _; rfl) (Or.inl hm)
  simpa [emptyResult] using this

theorem emptyResult_vals {metrics : List String} {nt : Nat} :
    ∀ p ∈ emptyResult metrics nt, p.2 = List.replicate nt FVal.nan := by
  have gen : ∀ (l : List String) (d : Dict (List FVal)),
      (∀ p ∈ d, p.2 = List.replicate nt FVal.nan) →
      ∀ p ∈ l.foldl (fun d2 x => assocSet d2 x (List.replicate nt FVal.nan)) d,
        p.2 = List.replicate nt FVal.nan := by
    intro l
    induction l with
    | nil => intro d hd; simpa using hd
    | cons x rest ih =>
        intro d hd
        simp only [List.foldl_cons]
        apply ih
        intro p hp
        rcases mem_assocSet hp with h | h
        · exact hd p h
        · simp [h]
  exact gen metrics [] (by intro p hp; simp at hp)

/-- C5: if the Prediction Grid has zero items, `evaluate_predictions` maps
every requested metric to a sequence of exactly `num_tasks` NaN values (the
early return builds this dictionary before anything else can run; with
`metric_by_row` the second pass rebuilds the same dictionary and the merge
leaves the values unchanged). -/
theorem C5_empty_grid (M : Resolver) (targets : List (List (Option ℚ)))
    (nt : Nat) (metrics : List String) (dt : String) (mbr hl : Bool)
    (m : String) (hm : m ∈ metrics) :
    (evaluate_predictions M [] targets nt metrics dt mbr hl).map
      (fun r => lookupA m r.1)
      = Except.ok (some (List.replicate nt FVal.nan)) := by
  have h1 : _evaluate_predictions M [] targets nt metrics dt false hl ⟨[], []⟩
      = Except.ok (emptyResult metrics nt, ⟨[], []⟩) := by
    simp [_evaluate_predictions]
  cases mbr with
  | false =>
      simp [evaluate_predictions, h1, Bind.bind, Except.bind, Pure.pure,
        Except.pure, Except.map]
      exact emptyResult_lookup hm
  | true =>
      have h2 : _evaluate_predictions M [] targets nt metrics dt true hl ⟨[], []⟩
          = Except.ok (emptyResult metrics nt, ⟨[], []⟩) := by
        simp [_evaluate_predictions]
      have hmem : ∃ p ∈ emptyResult metrics nt, p.1 = m :=
        ⟨(m, List.replicate nt FVal.nan), lookupA_mem (emptyResult_lookup hm), rfl⟩
      have hlu := lookupA_dictUpdate m (List.replicate nt FVal.nan)
        (emptyResult metrics nt) (emptyResult metrics nt)
        (fun p hp _ => emptyResult_vals p hp) (Or.inl hmem)
      simp [evaluate_predictions, h1, h2, Bind.bind, Except.bind, Pure.pure,
        Except.pure, Except.map, Functor.map, hlu]

/-- Witness for C5 at a concrete input. -/
theorem C5_empty_grid_witness :
    "auc" ∈ ["auc", "rmse"] ∧
      (evaluate_predictions constMetric [] [] 2 ["auc", "rmse"] "regression"
          true true).map (fun r => lookupA "auc" r.1)
        = Except.ok (some (List.replicate 2 FVal.nan)) :=
  ⟨by simp,
   C5_empty_grid constMetric [] 2 ["auc", "rmse"] "regression" true true "auc"
     (by simp)⟩

/-! ## Success and failure conditions of `select_valid_values` -/

theorem getE_eq_ok {α : Type} {l : List α} {i : Nat} {x : α} :
    getE l i = Except.ok x ↔ l.get? i = some x := by
  simp only [getE]
  cases h : l.get? i <;> simp

theorem getE_ok_of_lt {α : Type} {l : List α} {i : Nat} (h : i < l.length) :
    ∃ x, getE l i = Except.ok x :=
  ⟨l.get ⟨i, h⟩, getE_eq_ok.mpr (List.get?_eq_get h)⟩

theorem forRangeM_ok {σ : Type} (step : σ → Nat → Except Err σ) (init : σ)
    (n : Nat) (h : ∀ st k, k < n → ∃ out, step st k = Except.ok out) :
    ∃ out, forRangeM step (Except.ok init) n = Except.ok out := by
  induction n with
  | zero => exact ⟨init, rfl⟩
  | succ n ih =>
      obtain ⟨st, hst⟩ := ih (fun st k hk => h st k (Nat.lt_succ_of_lt hk))
      obtain ⟨out, hout⟩ := h st n (Nat.lt_succ_self n)
      exact ⟨out, by simp [forRangeM, hst, Except.bind, hout]⟩

theorem svvStep_ok {preds : List (List PVal)} {targets : List (List (Option ℚ))}
    {mbr : Bool} {nt i j : Nat} (st : List (List PVal) × List (List ℚ))
    (hi : i < nt) (hj : j < preds.length) (hlen : preds.length ≤ targets.length)
    (hw : nt ≤ (targets.getD j []).length ∧ nt ≤ (preds.getD j []).length) :
    ∃ out, svvStep preds targets mbr i st j = Except.ok out := by
  have hjt : j < targets.length := Nat.lt_of_lt_of_le hj hlen
  obtain ⟨trow, htrow⟩ := getE_ok_of_lt hjt
  have htrowD : targets.getD j [] = trow := by
    rw [List.getD_eq_getElem?_getD, ← List.get?_eq_getElem?, getE_eq_ok.mp htrow]
    rfl
  have hti : i < trow.length := Nat.lt_of_lt_of_le hi (htrowD ▸ hw.1)
  obtain ⟨tcell, htcell⟩ := getE_ok_of_lt hti
  obtain ⟨prow, hprow⟩ := getE_ok_of_lt hj
  have hprowD : preds.getD j [] = prow := by
    rw [List.getD_eq_getElem?_getD, ← List.get?_eq_getElem?, getE_eq_ok.mp hprow]
    rfl
  have hpi : i < prow.length := Nat.lt_of_lt_of_le hi (hprowD ▸ hw.2)
  obtain ⟨pcell, hpcell⟩ := getE_ok_of_lt hpi
  cases tcell with
  | none =>
      exact ⟨st, by simp [svvStep, htrow, htcell, Bind.bind, Except.bind,
        Pure.pure, Except.pure]⟩
  | some t =>
      refine ⟨(modifyAt (fun g => g ++ [pcell]) (if mbr then j else i) st.1,
               modifyAt (fun g => g ++ [t]) (if mbr then j else i) st.2), ?_⟩
      simp [svvStep, htrow, htcell, hprow, hpcell, Bind.bind, Except.bind,
        Pure.pure, Except.pure]

/-! ## C7: the validity filtering is an order-preserving partition -/

theorem modifyAt_get? {α : Type} (f : α → α) (k : Nat) (l : List α) (n : Nat) :
    (modifyAt f k l).get? n = if n = k then (l.get? n).map f else l.get? n := by
  induction l generalizing k n with
  | nil => simp [modifyAt]
  | cons x xs ih =>
      cases k with
      | zero =>
          cases n with
          | zero => simp [modifyAt]
          | succ n => simp [modifyAt]
      | succ k =>
          cases n with
          | zero => simp [modifyAt]
          | succ n =>
              simp only [modifyAt, List.get?_cons_succ, ih]
              by_cases h : n = k <;> simp [h]

theorem modifyAt_congr {α : Type} {f g : α → α} (k : Nat) (l : List α)
    (h : ∀ x, f x = g x) : modifyAt f k l = modifyAt g k l := by
  induction l generalizing k with
  | nil => simp [modifyAt]
  | cons x xs ih =>
      cases k with
      | zero => simp [modifyAt, h]
      | succ k => simp [modifyAt, ih]

theorem modifyAt_id {α : Type} {f : α → α} (k : Nat) (l : List α)
    (h : ∀ x, f x = x) : modifyAt f k l = l := by
  induction l generalizing k with
  | nil => simp [modifyAt]
  | cons x xs ih =>
      cases k with
      | zero => simp [modifyAt, h]
      | succ k => simp [modifyAt, ih]

theorem modifyAt_modifyAt {α : Type} (f g : α → α) (k : Nat) (l : List α) :
    modifyAt f k (modifyAt g k l) = modifyAt (fun x => f (g x)) k l := by
  induction l generalizing k with
  | nil => simp [modifyAt]
  | cons x xs ih =>
      cases k with
      | zero => simp [modifyAt]
      | succ k => simp [modifyAt, ih]

theorem modifyAt_map_range {α : Type} (f : α → α) (m n : Nat) (g : Nat → α)
    (hm : m < n) :
    modifyAt f m ((List.range n).map g)
      = (List.range n).map (fun t => if t = m then f (g t) else g t) := by
  apply List.ext_get?_iff.mpr
  intro k
  rw [modifyAt_get?]
  by_cases hkn : k < n
  · have hr : (List.range n)[k]? = some k := by
      simpa using List.getElem?_range hkn
    by_cases hk : k = m
    · subst hk
      simp [List.get?_map, hr]
    · simp [List.get?_map, hr, hk]
  · have hr : (List.range n)[k]? = none :=
      List.getElem?_eq_none (by simpa using Nat.le_of_not_lt hkn)
    simp [List.get?_map, hr]

theorem getD_of_getE {α : Type} {l : List α} {i : Nat} {x : α} (d : α)
    (h : getE l i = Except.ok x) : l.getD i d = x := by
  rw [List.getD_eq_getElem?_getD, ← List.get?_eq_getElem?, getE_eq_ok.mp h]
  rfl

theorem svv_inner_task {preds : List (List PVal)} {targets : List (List (Option ℚ))}
    {nt : Nat} (hT : targets.length = preds.length)
    (hTw : ∀ row ∈ targets, row.length = nt)
    (hPw : ∀ row ∈ preds, row.length = nt)
    {i : Nat} (hi : i < nt) :
    ∀ m, m ≤ preds.length → ∀ st : List (List PVal) × List (List ℚ),
      forRangeM (fun st2 j => svvStep preds targets false i st2 j)
          (Except.ok st) m
        = Except.ok
          (modifyAt (fun g => g ++ (List.range m).filterMap (fun j =>
              match tcellD targets j i with
              | some _ => some (pcellD preds j i)
              | none => none)) i st.1,
           modifyAt (fun g => g ++ (List.range m).filterMap (fun j =>
              tcellD targets j i)) i st.2) := by
  intro m
  induction m with
  | zero =>
      intro _ st
      simp only [forRangeM, List.range_zero, List.filterMap_nil]
      rw [modifyAt_id i st.1 (fun x => List.append_nil x),
        modifyAt_id i st.2 (fun x => List.append_nil x)]
  | succ m ih =>
      intro hm st
      have hmP : m < preds.length := hm
      have hmT : m < targets.length := hT ▸ hmP
      obtain ⟨trow, htrow⟩ := getE_ok_of_lt hmT
      have htroww : trow.length = nt :=
        hTw trow (List.get?_mem (getE_eq_ok.mp htrow))
      obtain ⟨prow, hprow⟩ := getE_ok_of_lt hmP
      have hproww : prow.length = nt :=
        hPw prow (List.get?_mem (getE_eq_ok.mp hprow))
      have hti : i < trow.length := htroww ▸ hi
      obtain ⟨tcell, htcell⟩ := getE_ok_of_lt hti
      have hpi : i < prow.length := hproww ▸ hi
      obtain ⟨pcell, hpcell⟩ := getE_ok_of_lt hpi
      have htc : tcellD targets m i = tcell := by
        rw [tcellD, getD_of_getE [] htrow, getD_of_getE none htcell]
      have hpc : pcellD preds m i = pcell := by
        rw [pcellD, getD_of_getE [] hprow, getD_of_getE (PVal.scalar 0) hpcell]
      have hrange : List.range (m + 1) = List.range m ++ [m] := by
        rw [List.range_succ]
      show (forRangeM _ (Except.ok st) m).bind _ = _
      rw [ih (Nat.le_of_succ_le hm) st]
      cases tcell with
      | none =>
          have h1 : (List.range (m + 1)).filterMap (fun j =>
              match tcellD targets j i with
              | some _ => some (pcellD preds j i)
              | none => none)
            = (List.range m).filterMap (fun j =>
              match tcellD targets j i with
              | some _ => some (pcellD preds j i)
              | none => none) := by
            rw [hrange, List.filterMap_append]
            simp [htc]
          have h2 : (List.range (m + 1)).filterMap (fun j => tcellD targets j i)
              = (List.range m).filterMap (fun j => tcellD targets j i) := by
            rw [hrange, List.filterMap_append]
            simp [htc]
          rw [h1, h2]
          simp [svvStep, htrow, htcell, Bind.bind, Except.bind, Pure.pure,
            Except.pure]
      | some t =>
          have h1 : (List.range (m + 1)).filterMap (fun j =>
              match tcellD targets j i with
              | some _ => some (pcellD preds j i)
              | none => none)
            = (List.range m).filterMap (fun j =>
              match tcellD targets j i with
              | some _ => some (pcellD preds j i)
              | none => none) ++ [pcell] := by
            rw [hrange, List.filterMap_append]
            simp [htc, hpc]
          have h2 : (List.range (m + 1)).filterMap (fun j => tcellD targets j i)
              = (List.range m).filterMap (fun j => tcellD targets j i) ++ [t] := by
            rw [hrange, List.filterMap_append]
            simp [htc]
          rw [h1, h2]
          simp only [svvStep, htrow, htcell, hprow, hpcell, Bind.bind,
            Except.bind, Pure.pure, Except.pure, Bool.false_eq_true, if_false]
          rw [modifyAt_modifyAt, modifyAt_modifyAt]
          rw [modifyAt_congr i st.1 (fun x => (List.append_assoc x _ _).symm),
            modifyAt_congr i st.2 (fun x => (List.append_assoc x _ _).symm)]

theorem svv_outer_task {preds : List (List PVal)} {targets : List (List (Option ℚ))}
    {nt : Nat} (hT : targets.length = preds.length)
    (hTw : ∀ row ∈ targets, row.length = nt)
    (hPw : ∀ row ∈ preds, row.length = nt) :
    ∀ m, m ≤ nt →
      forRangeM (fun st i =>
          forRangeM (fun st2 j => svvStep preds targets false i st2 j)
            (Except.ok st) preds.length)
        (Except.ok (List.replicate nt [], List.replicate nt [])) m
      = Except.ok
        ((List.range nt).map (fun t => if t < m then
            (List.range preds.length).filterMap (fun j =>
              match tcellD targets j t with
              | some _ => some (pcellD preds j t)
              | none => none) else []),
         (List.range nt).map (fun t => if t < m then
            (List.range preds.length).filterMap (fun j =>
              tcellD targets j t) else [])) := by
  intro m
  induction m with
  | zero =>
      simp [forRangeM]
  | succ m ih =>
      intro hm
      have hmnt : m < nt := hm
      show (forRangeM _ _ m).bind _ = _
      rw [ih (Nat.le_of_succ_le hm)]
      show forRangeM (fun st2 j => svvStep preds targets false m st2 j)
        (Except.ok _) preds.length = _
      rw [svv_inner_task hT hTw hPw hmnt preds.length (Nat.le_refl _) _]
      congr 1
      congr 1
      · rw [modifyAt_map_range _ _ _ _ hmnt]
        apply List.map_congr_left
        intro t ht
        by_cases htm : t = m
        · subst htm
          simp [Nat.lt_succ_self]
        · by_cases htm2 : t < m
          · simp [htm, htm2, Nat.lt_succ_of_lt htm2]
          · have : ¬ t < m + 1 := by omega
            simp [htm, htm2, this]
      · rw [modifyAt_map_range _ _ _ _ hmnt]
        apply List.map_congr_left
        intro t ht
        by_cases htm : t = m
        · subst htm
          simp [Nat.lt_succ_self]
        · by_cases htm2 : t < m
          · simp [htm, htm2, Nat.lt_succ_of_lt htm2]
          · have : ¬ t < m + 1 := by omega
            simp [htm, htm2, this]

theorem svv_task_spec {preds : List (List PVal)} {targets : List (List (Option ℚ))}
    {nt : Nat} (hT : targets.length = preds.length)
    (hTw : ∀ row ∈ targets, row.length = nt)
    (hPw : ∀ row ∈ preds, row.length = nt) :
    select_valid_values preds targets nt false
      = Except.ok (specGroupsByTask preds targets nt) := by
  have h := svv_outer_task hT hTw hPw nt (Nat.le_refl nt)
  simp only [select_valid_values, Bool.false_eq_true, if_false]
  rw [h]
  unfold specGroupsByTask
  congr 1
  congr 1
  · apply List.map_congr_left
    intro t ht
    simp [List.mem_range.mp ht]
  · apply List.map_congr_left
    intro t ht
    simp [List.mem_range.mp ht]

theorem svv_inner_row {preds : List (List PVal)} {targets : List (List (Option ℚ))}
    {nt : Nat} (hT : targets.length = preds.length)
    (hTw : ∀ row ∈ targets, row.length = nt)
    (hPw : ∀ row ∈ preds, row.length = nt)
    {i : Nat} (hi : i < nt) :
    ∀ m, m ≤ preds.length → ∀ (f1 : Nat → List PVal) (f2 : Nat → List ℚ),
      forRangeM (fun st2 j => svvStep preds targets true i st2 j)
          (Except.ok ((List.range preds.length).map f1,
                      (List.range preds.length).map f2)) m
        = Except.ok
          ((List.range preds.length).map (fun j => if j < m then
              f1 j ++ (match tcellD targets j i with
                | some _ => [pcellD preds j i]
                | none => []) else f1 j),
           (List.range preds.length).map (fun j => if j < m then
              f2 j ++ (tcellD targets j i).toList else f2 j)) := by
  intro m
  induction m with
  | zero =>
      intro _ f1 f2
      simp [forRangeM]
  | succ m ih =>
      intro hm f1 f2
      have hmP : m < preds.length := hm
      have hmT : m < targets.length := hT ▸ hmP
      obtain ⟨trow, htrow⟩ := getE_ok_of_lt hmT
      have htroww : trow.length = nt :=
        hTw trow (List.get?_mem (getE_eq_ok.mp htrow))
      obtain ⟨prow, hprow⟩ := getE_ok_of_lt hmP
      have hproww : prow.length = nt :=
        hPw prow (List.get?_mem (getE_eq_ok.mp hprow))
      have hti : i < trow.length := htroww ▸ hi
      obtain ⟨tcell, htcell⟩ := getE_ok_of_lt hti
      have hpi : i < prow.length := hproww ▸ hi
      obtain ⟨pcell, hpcell⟩ := getE_ok_of_lt hpi
      have htc : tcellD targets m i = tcell := by
        rw [tcellD, getD_of_getE [] htrow, getD_of_getE none htcell]
      have hpc : pcellD preds m i = pcell := by
        rw [pcellD, getD_of_getE [] hprow, getD_of_getE (PVal.scalar 0) hpcell]
      show (forRangeM _ (Except.ok _) m).bind _ = _
      rw [ih (Nat.le_of_succ_le hm) f1 f2]
      cases tcell with
      | none =>
          simp only [svvStep, htrow, htcell, Bind.bind, Except.bind, Pure.pure,
            Except.pure]
          congr 1
          congr 1
          · apply List.map_congr_left
            intro j hj
            by_cases hjm : j = m
            · subst hjm
              simp [htc, Nat.lt_succ_self]
            · by_cases hj2 : j < m
              · simp [hj2, Nat.lt_succ_of_lt hj2]
              · have : ¬ j < m + 1 := by omega
                simp [hj2, this]
          · apply List.map_congr_left
            intro j hj
            by_cases hjm : j = m
            · subst hjm
              simp [htc, Nat.lt_succ_self]
            · by_cases hj2 : j < m
              · simp [hj2, Nat.lt_succ_of_lt hj2]
              · have : ¬ j < m + 1 := by omega
                simp [hj2, this]
      | some t =>
          simp only [svvStep, htrow, htcell, hprow, hpcell, Bind.bind,
            Except.bind, Pure.pure, Except.pure, if_true]
          rw [modifyAt_map_range _ _ _ _ hmP, modifyAt_map_range _ _ _ _ hmP]
          congr 1
          congr 1
          · apply List.map_congr_left
            intro j hj
            by_cases hjm : j = m
            · subst hjm
              simp [htc, hpc, Nat.lt_succ_self]
            · by_cases hj2 : j < m
              · simp [hjm, hj2, Nat.lt_succ_of_lt hj2]
              · have : ¬ j < m + 1 := by omega
                simp [hjm, hj2, this]
          · apply List.map_congr_left
            intro j hj
            by_cases hjm : j = m
            · subst hjm
              simp [htc, Nat.lt_succ_self]
            · by_cases hj2 : j < m
              · simp [hjm, hj2, Nat.lt_succ_of_lt hj2]
              · have : ¬ j < m + 1 := by omega
                simp [hjm, hj2, this]

theorem svv_outer_row {preds : List (List PVal)} {targets : List (List (Option ℚ))}
    {nt : Nat} (hT : targets.length = preds.length)
    (hTw : ∀ row ∈ targets, row.length = nt)
    (hPw : ∀ row ∈ preds, row.length = nt) :
    ∀ m, m ≤ nt →
      forRangeM (fun st i =>
          forRangeM (fun st2 j => svvStep preds targets true i st2 j)
            (Except.ok st) preds.length)
        (Except.ok (List.replicate preds.length [], List.replicate preds.length []))
        m
      = Except.ok
        ((List.range preds.length).map (fun j =>
            (List.range m).filterMap (fun t =>
              match tcellD targets j t with
              | some _ => some (pcellD preds j t)
              | none => none)),
         (List.range preds.length).map (fun j =>
            (List.range m).filterMap (fun t => tcellD targets j t))) := by
  intro m
  induction m with
  | zero =>
      simp [forRangeM]
  | succ m ih =>
      intro hm
      have hmnt : m < nt := hm
      have hrange : List.range (m + 1) = List.range m ++ [m] := by
        rw [List.range_succ]
      show (forRangeM _ _ m).bind _ = _
      rw [ih (Nat.le_of_succ_le hm)]
      show forRangeM (fun st2 j => svvStep preds targets true m st2 j)
        (Except.ok _) preds.length = _
      rw [svv_inner_row hT hTw hPw hmnt preds.length (Nat.le_refl _)]
      congr 1
      congr 1
      · apply List.map_congr_left
        intro j hj
        have hjP : j < preds.length := List.mem_range.mp hj
        rw [if_pos hjP, hrange, List.filterMap_append]
        cases h : tcellD targets j m <;> simp [h]
      · apply List.map_congr_left
        intro j hj
        have hjP : j < preds.length := List.mem_range.mp hj
        rw [if_pos hjP, hrange, List.filterMap_append]
        cases h : tcellD targets j m <;> simp [h]

theorem svv_row_spec {preds : List (List PVal)} {targets : List (List (Option ℚ))}
    {nt : Nat} (hT : targets.length = preds.length)
    (hTw : ∀ row ∈ targets, row.length = nt)
    (hPw : ∀ row ∈ preds, row.length = nt) :
    select_valid_values preds targets nt true
      = Except.ok (specGroupsByRow preds targets nt) := by
  have h := svv_outer_row hT hTw hPw nt (Nat.le_refl nt)
  simp only [select_valid_values, if_true]
  rw [h]
  rfl

/-- C7: on well-shaped grids (equal item counts, every row of width
`num_tasks`), `select_valid_values` succeeds and returns exactly the
specification's partition of the present-target cells: in task-axis mode,
group `t` holds the pairs of column `t` in item order; in row-axis mode,
group `j` holds the pairs of item `j` in task order; absent-target cells
appear in no group.  Each present cell `(j, t)` thus appears in exactly the
one group given by its non-grouped coordinate, with original order
preserved. -/
theorem C7_partition {preds : List (List PVal)} {targets : List (List (Option ℚ))}
    {nt : Nat} (mbr : Bool) (hT : targets.length = preds.length)
    (hTw : ∀ row ∈ targets, row.length = nt)
    (hPw : ∀ row ∈ preds, row.length = nt) :
    select_valid_values preds targets nt mbr
      = Except.ok (if mbr then specGroupsByRow preds targets nt
                   else specGroupsByTask preds targets nt) := by
  cases mbr with
  | false => simpa using svv_task_spec hT hTw hPw
  | true => simpa using svv_row_spec hT hTw hPw

/-- Witness for C7 at a concrete input, with the spec-side partition fully
evaluated. -/
theorem C7_partition_witness :
    (select_valid_values
        [[PVal.scalar 1, PVal.scalar 2], [PVal.scalar 3, PVal.scalar 4]]
        [[some 10, none], [some 30, some 40]] 2 true
      = Except.ok (if true then
          specGroupsByRow
            [[PVal.scalar 1, PVal.scalar 2], [PVal.scalar 3, PVal.scalar 4]]
            [[some 10, none], [some 30, some 40]] 2
        else
          specGroupsByTask
            [[PVal.scalar 1, PVal.scalar 2], [PVal.scalar 3, PVal.scalar 4]]
            [[some 10, none], [some 30, some 40]] 2)) ∧
    specGroupsByRow
        [[PVal.scalar 1, PVal.scalar 2], [PVal.scalar 3, PVal.scalar 4]]
        [[some 10, none], [some 30, some 40]] 2
      = ([[PVal.scalar 1], [PVal.scalar 3, PVal.scalar 4]], [[10], [30, 40]]) :=
  ⟨C7_partition true (by rfl)
    (by intro row hrow; fin_cases hrow <;> rfl)
    (by intro row hrow; fin_cases hrow <;> rfl),
   by decide⟩

/-! ## C8: zero-valid classification groups on the processed range -/

/-- C8 (amended): when `dataset_type` is `"classification"`, any group that
the aggregation loop actually processes and that has zero valid entries is
treated as degenerate — the all-equal checks hold vacuously — so one NaN is
appended under every metric key (rather than the group being skipped), and
in task-axis mode both degeneracy warnings are emitted (none in row-axis
mode).  Groups whose index is not reached by the loop (task indices at or
above the item count) are, however, silently dropped with no entry, as the
counterexample shows. -/
theorem C8_amended_empty_group_nan (M : Resolver) (mtf : Dict String)
    (mbr hl : Bool) (vps : List (List PVal)) (vts : List (List ℚ)) (i : Nat)
    (d : Dict (List FVal)) (ls : LogState)
    (hvt : getE vts i = Except.ok [])
    (hvp : getE vps i = Except.ok []) :
    groupStep M "classification" mtf mbr hl vps vts (d, ls) i
      = Except.ok (appendAllF mtf (fun _ => FVal.nan) d,
          if mbr then ls else info hl warnPreds (info hl warnTargets ls)) := by
  simp [groupStep, hvt, hvp, allEqB, allPredEqB, Bind.bind, Except.bind,
    Pure.pure, Except.pure]
  cases mbr <;> simp

/-- Witness for C8 (amended) at a concrete input, with the appended
dictionary evaluated. -/
theorem C8_amended_witness :
    (groupStep constMetric "classification" [("auc", "auc")] false true [[]] [[]]
        ([], ⟨[], []⟩) 0
      = Except.ok (appendAllF [("auc", "auc")] (fun _ => FVal.nan) [],
          if false then (⟨[], []⟩ : LogState)
          else info true warnPreds (info true warnTargets ⟨[], []⟩))) ∧
    appendAllF [("auc", "auc")] (fun _ => FVal.nan) [] = [("auc", [FVal.nan])] :=
  ⟨C8_amended_empty_group_nan constMetric _ false true _ _ 0 _ _ rfl rfl, rfl⟩

/-! ## Characterisation of the aggregation loop

`groupStep` (the body of `for i in range(len(preds))`) is proved equal to the
dictionary-free description `groupContribution`/`groupWarnings`, the whole
loop to `contribsUpTo`/`warnsUpTo`, and the accumulated `defaultdict` to an
explicit per-metric map.  These lemmas drive the claims about result keys,
row-axis reduction, logger independence and equal sequence lengths. -/

theorem appendMetricsM_ok (M : Resolver) (dt : String) (vt : List ℚ)
    (vp : List PVal) {lab : Option (List Nat)}
    (hlab : labelsFor dt vp = Except.ok lab) :
    ∀ (mtf : Dict String) (d : Dict (List FVal)),
      appendMetricsM M dt mtf vt vp d
        = Except.ok (appendAllF mtf (fun mn => M mn vt vp lab) d) := by
  intro mtf
  induction mtf with
  | nil => intro d; rfl
  | cons p rest ih =>
      intro d
      have step : appendMetricsM M dt (p :: rest) vt vp d
          = appendMetricsM M dt rest vt vp (ddAppend d p.1 (M p.2 vt vp lab)) := by
        simp [appendMetricsM, List.foldlM_cons, metricCall, hlab, Except.map,
          Bind.bind, Except.bind, Pure.pure, Except.pure]
      rw [step, ih (ddAppend d p.1 (M p.2 vt vp lab))]
      simp [appendAllF, List.foldl_cons]

theorem appendMetricsM_error (M : Resolver) (dt : String) (vt : List ℚ)
    (vp : List PVal) {e : Err} (hlab : labelsFor dt vp = Except.error e)
    (mtf : Dict String) (hmtf : mtf ≠ []) (d : Dict (List FVal)) :
    appendMetricsM M dt mtf vt vp d = Except.error e := by
  cases mtf with
  | nil => exact absurd rfl hmtf
  | cons p rest =>
      simp [appendMetricsM, List.foldlM_cons, metricCall, hlab, Except.map,
        Bind.bind, Except.bind]

theorem groupTail_characterization (M : Resolver) (dt : String)
    (mtf : Dict String) (hmtf : mtf ≠ []) (vps : List (List PVal))
    (vts : List (List ℚ)) (i : Nat) (d : Dict (List FVal)) (ls : LogState) :
    groupTail M dt mtf vps vts i d ls
      = applyContrib mtf d ls (contribTail M dt vts vps i) := by
  cases hvt : getE vts i with
  | error e =>
      simp [groupTail, contribTail, hvt, Bind.bind, Except.bind, applyContrib]
  | ok vt =>
      by_cases hlen : vt.length = 0
      · simp [groupTail, contribTail, hvt, hlen, Bind.bind, Except.bind,
          Pure.pure, Except.pure, applyContrib]
      · cases hvp : getE vps i with
        | error e =>
            simp [groupTail, contribTail, hvt, hlen, hvp, Bind.bind,
              Except.bind, applyContrib]
        | ok vp =>
            cases hlab : labelsFor dt vp with
            | error e =>
                rw [groupTail]
                simp only [hvt, hlen, hvp, Bind.bind, Except.bind,
                  if_neg hlen]
                rw [appendMetricsM_error M dt vt vp hlab mtf hmtf d]
                simp [contribTail, hvt, hlen, hvp, hlab, Bind.bind,
                  Except.bind, applyContrib]
            | ok lab =>
                rw [groupTail]
                simp only [hvt, hlen, hvp, Bind.bind, Except.bind,
                  if_neg hlen]
                rw [appendMetricsM_ok M dt vt vp hlab mtf d]
                simp [contribTail, hvt, hlen, hvp, hlab, Bind.bind,
                  Except.bind, Pure.pure, Except.pure, applyContrib]

theorem groupStep_characterization (M : Resolver) (dt : String)
    (mtf : Dict String) (hmtf : mtf ≠ []) (mbr hl : Bool)
    (vps : List (List PVal)) (vts : List (List ℚ))
    (d : Dict (List FVal)) (ls : LogState) (i : Nat) :
    groupStep M dt mtf mbr hl vps vts (d, ls) i
      = applyContrib mtf d (logAll hl (groupWarnings dt mbr vts vps i) ls)
          (groupContribution M dt vts vps i) := by
  by_cases hdt : dt = "classification"
  · subst hdt
    cases hvt : getE vts i with
    | error e =>
        simp [groupStep, groupContribution, hvt, Bind.bind, Except.bind,
          applyContrib]
    | ok vt =>
        cases hvp : getE vps i with
        | error e =>
            simp [groupStep, groupContribution, hvt, hvp, Bind.bind,
              Except.bind, applyContrib]
        | ok vp =>
            have hvtD : vts[i]? = some vt := by
              rw [← List.get?_eq_getElem?]
              exact getE_eq_ok.mp hvt
            have hvpD : vps[i]? = some vp := by
              rw [← List.get?_eq_getElem?]
              exact getE_eq_ok.mp hvp
            by_cases h1 : (allEqB vt 0 || allEqB vt 1) = true
            · have h1o : allEqB vt 0 = true ∨ allEqB vt 1 = true := by
                simpa using h1
              by_cases h2 : (allPredEqB vp 0 || allPredEqB vp 1) = true
              · have h2o : allPredEqB vp 0 = true ∨ allPredEqB vp 1 = true := by
                  simpa using h2
                simp only [groupStep, groupContribution, groupWarnings, hvt,
                  hvp, h1, h2, Bind.bind, Except.bind, Pure.pure, Except.pure,
                  applyContrib, logAll, Bool.or_self, if_true]
                cases mbr <;>
                  simp [info, hvtD, hvpD, h1, h2, h1o, h2o, List.foldl]
              · have h2o : ¬ (allPredEqB vp 0 = true ∨ allPredEqB vp 1 = true) := by
                  simpa using h2
                simp only [groupStep, groupContribution, groupWarnings, hvt,
                  hvp, h1, h2, Bind.bind, Except.bind, Pure.pure, Except.pure,
                  applyContrib, logAll]
                cases mbr <;>
                  simp [info, hvtD, hvpD, h1, h2, h1o, h2o, List.foldl]
            · have h1o : ¬ (allEqB vt 0 = true ∨ allEqB vt 1 = true) := by
                simpa using h1
              by_cases h2 : (allPredEqB vp 0 || allPredEqB vp 1) = true
              · have h2o : allPredEqB vp 0 = true ∨ allPredEqB vp 1 = true := by
                  simpa using h2
                simp only [groupStep, groupContribution, groupWarnings, hvt,
                  hvp, h1, h2, Bind.bind, Except.bind, Pure.pure, Except.pure,
                  applyContrib, logAll]
                cases mbr <;>
                  simp [info, hvtD, hvpD, h1, h2, h1o, h2o, List.foldl]
              · have h2o : ¬ (allPredEqB vp 0 = true ∨ allPredEqB vp 1 = true) := by
                  simpa using h2
                have hw : groupWarnings "classification" mbr vts vps i = [] := by
                  simp [groupWarnings, hvtD, hvpD, h1o, h2o]
                rw [hw]
                have hstep : groupStep M "classification" mtf mbr hl vps vts
                    (d, ls) i = groupTail M "classification" mtf vps vts i d ls := by
                  simp [groupStep, hvt, hvp, h1, h2, Bind.bind, Except.bind]
                have hcontrib : groupContribution M "classification" vts vps i
                    = contribTail M "classification" vts vps i := by
                  simp [groupContribution, hvt, hvp, h1, h2, Bind.bind,
                    Except.bind]
                rw [hstep, hcontrib, logAll]
                simpa using groupTail_characterization M "classification" mtf
                  hmtf vps vts i d ls
  · have hw : groupWarnings dt mbr vts vps i = [] := by
      simp [groupWarnings, hdt]
    rw [hw]
    have hstep : groupStep M dt mtf mbr hl vps vts (d, ls) i
        = groupTail M dt mtf vps vts i d ls := by
      simp [groupStep, hdt]
    have hcontrib : groupContribution M dt vts vps i
        = contribTail M dt vts vps i := by
      simp [groupContribution, hdt]
    rw [hstep, hcontrib, logAll]
    simpa using groupTail_characterization M dt mtf hmtf vps vts i d ls

theorem groupWarnings_nil_of_skip {M : Resolver} {dt : String}
    {vts : List (List ℚ)} {vps : List (List PVal)} {i : Nat} (mbr : Bool)
    (hg : groupContribution M dt vts vps i = Except.ok none) :
    groupWarnings dt mbr vts vps i = [] := by
  by_cases hdt : dt = "classification"
  · exfalso
    subst hdt
    cases hvt : getE vts i with
    | error e => simp [groupContribution, hvt, Bind.bind, Except.bind] at hg
    | ok vt =>
        cases hvp : getE vps i with
        | error e =>
            simp [groupContribution, hvt, hvp, Bind.bind, Except.bind] at hg
        | ok vp =>
            by_cases h12 : ((allEqB vt 0 || allEqB vt 1)
                || (allPredEqB vp 0 || allPredEqB vp 1)) = true
            · simp [groupContribution, hvt, hvp, h12, Bind.bind, Except.bind,
                Pure.pure, Except.pure] at hg
            · have h1 : ¬ allEqB vt 0 = true := by
                intro h
                exact h12 (by simp [h])
              have hvtne : vt ≠ [] := by
                intro h
                exact h1 (by simp [h, allEqB])
              have hlen : ¬ vt.length = 0 := by
                simpa [List.length_eq_zero] using hvtne
              simp [groupContribution, contribTail, hvt, hvp, h12, hlen,
                labelsFor, Bind.bind, Except.bind, Pure.pure, Except.pure] at hg
  · simp [groupWarnings, hdt]

theorem loop_characterization (M : Resolver) (dt : String) (mtf : Dict String)
    (hmtf : mtf ≠ []) (mbr hl : Bool) (vps : List (List PVal))
    (vts : List (List ℚ)) :
    ∀ (n : Nat) (d0 : Dict (List FVal)) (ls0 : LogState),
      forRangeM (groupStep M dt mtf mbr hl vps vts) (Except.ok (d0, ls0)) n
        = (contribsUpTo M dt vts vps n).map (fun cs =>
            (cs.foldl (fun d g => appendAllF mtf g d) d0,
             logAll hl (warnsUpTo dt mbr vts vps n) ls0)) := by
  intro n
  induction n with
  | zero =>
      intro d0 ls0
      simp [forRangeM, contribsUpTo, warnsUpTo, logAll, Except.map]
  | succ n ih =>
      intro d0 ls0
      show (forRangeM _ _ n).bind _ = _
      rw [ih d0 ls0]
      cases hc : contribsUpTo M dt vts vps n with
      | error e =>
          simp [contribsUpTo, hc, Except.map, Bind.bind, Except.bind]
      | ok cs =>
          simp only [Except.map, Bind.bind, Except.bind]
          rw [groupStep_characterization M dt mtf hmtf mbr hl vps vts _ _ n]
          cases hg : groupContribution M dt vts vps n with
          | error e =>
              simp [contribsUpTo, hc, hg, applyContrib, Except.map, Bind.bind,
                Except.bind]
          | ok c =>
              cases c with
              | none =>
                  have hwn : groupWarnings dt mbr vts vps n = [] :=
                    groupWarnings_nil_of_skip mbr hg
                  simp [contribsUpTo, warnsUpTo, hc, hg, hwn, applyContrib,
                    Except.map, logAll, List.foldl_append, Bind.bind,
                    Except.bind, Pure.pure, Except.pure]
              | some g =>
                  simp [contribsUpTo, warnsUpTo, hc, hg, applyContrib,
                    Except.map, logAll, List.foldl_append, Bind.bind,
                    Except.bind, Pure.pure, Except.pure]

theorem assocSet_ne_nil {α : Type} (d : Dict α) (k : String) (v : α) :
    assocSet d k v ≠ [] := by
  cases d with
  | nil => simp [assocSet]
  | cons p rest =>
      obtain ⟨k2, v2⟩ := p
      by_cases h : k2 = k <;> simp [assocSet, h]

theorem mkMetricToFunc_ne_nil {metrics : List String} (mbr : Bool)
    (hm : metrics ≠ []) : mkMetricToFunc metrics mbr ≠ [] := by
  have gen : ∀ (l : List String) (d : Dict String), d ≠ [] →
      l.foldl (fun d2 m => assocSet d2 (metricKey mbr m) m) d ≠ [] := by
    intro l
    induction l with
    | nil => intro d hd; simpa using hd
    | cons x rest ih =>
        intro d _
        simp only [List.foldl_cons]
        exact ih _ (assocSet_ne_nil d (metricKey mbr x) x)
  cases metrics with
  | nil => exact absurd rfl hm
  | cons m rest =>
      simp only [mkMetricToFunc, List.foldl_cons]
      exact gen rest _ (assocSet_ne_nil [] (metricKey mbr m) m)

theorem evalPred_characterization (M : Resolver) (preds : List (List PVal))
    (targets : List (List (Option ℚ))) (nt : Nat) (metrics : List String)
    (dt : String) (mbr hl : Bool) (ls0 : LogState) (hm : metrics ≠ [])
    (hp : ¬ preds.length = 0) :
    _evaluate_predictions M preds targets nt metrics dt mbr hl ls0
      = (select_valid_values preds targets nt mbr).bind (fun vv =>
          (contribsUpTo M dt vv.2 vv.1 preds.length).map (fun cs =>
            ((if mbr then
                (cs.foldl (fun d g =>
                  appendAllF (mkMetricToFunc metrics mbr) g d) []).map
                  (fun p => (p.1, [nanmeanF p.2]))
              else
                cs.foldl (fun d g =>
                  appendAllF (mkMetricToFunc metrics mbr) g d) []),
             logAll hl (warnsUpTo dt mbr vv.2 vv.1 preds.length) ls0))) := by
  rw [_evaluate_predictions, if_neg hp]
  cases hs : select_valid_values preds targets nt mbr with
  | error e => simp [hs, Bind.bind, Except.bind]
  | ok vv =>
      obtain ⟨vps, vts⟩ := vv
      simp only [hs, Bind.bind, Except.bind]
      rw [loop_characterization M dt (mkMetricToFunc metrics mbr)
        (mkMetricToFunc_ne_nil mbr hm) mbr hl vps vts preds.length [] ls0]
      cases contribsUpTo M dt vts vps preds.length with
      | error e => simp [Except.map]
      | ok cs => cases mbr <;> simp [Except.map, Pure.pure, Except.pure]

theorem ddAppend_head_ne {k0 : String} {vs : List FVal} {d : Dict (List FVal)}
    {k : String} {v : FVal} (h : ¬ k0 = k) :
    ddAppend ((k0, vs) :: d) k v = (k0, vs) :: ddAppend d k v := by
  simp [ddAppend, h]

theorem appendAllF_head_ne (g : String → FVal) (k0 : String) (vs : List FVal) :
    ∀ (mtf : Dict String) (d : Dict (List FVal)),
      (∀ p ∈ mtf, ¬ p.1 = k0) →
      appendAllF mtf g ((k0, vs) :: d) = (k0, vs) :: appendAllF mtf g d := by
  intro mtf
  induction mtf with
  | nil => intro d _; rfl
  | cons p rest ih =>
      intro d hk
      have hp : ¬ p.1 = k0 := hk p (List.mem_cons_self p rest)
      simp only [appendAllF, List.foldl_cons]
      rw [ddAppend_head_ne (fun h => hp h.symm)]
      exact ih (ddAppend d p.1 (g p.2)) (fun q hq => hk q (List.mem_cons_of_mem p hq))

theorem appendAllF_nil_dict (g : String → FVal) :
    ∀ (mtf : Dict String), (mtf.map Prod.fst).Nodup →
      appendAllF mtf g [] = mtf.map (fun p => (p.1, [g p.2])) := by
  intro mtf
  induction mtf with
  | nil => intro _; rfl
  | cons p rest ih =>
      intro hnd
      simp only [List.map_cons, List.nodup_cons] at hnd
      simp only [appendAllF, List.foldl_cons, ddAppend]
      have : appendAllF rest g [(p.1, [g p.2])]
          = (p.1, [g p.2]) :: appendAllF rest g [] := by
        apply appendAllF_head_ne
        intro q hq hq1
        exact hnd.1 (hq1 ▸ List.mem_map_of_mem Prod.fst hq)
      calc appendAllF rest g [(p.1, [g p.2])]
          = (p.1, [g p.2]) :: appendAllF rest g [] := this
        _ = (p.1, [g p.2]) :: rest.map (fun q => (q.1, [g q.2])) := by
            rw [ih hnd.2]

theorem appendAllF_full_map (g : String → FVal) :
    ∀ (mtf : Dict String), (mtf.map Prod.fst).Nodup →
      ∀ (h : String × String → List FVal),
      appendAllF mtf g (mtf.map (fun p => (p.1, h p)))
        = mtf.map (fun p => (p.1, h p ++ [g p.2])) := by
  intro mtf
  induction mtf with
  | nil => intro _ h; rfl
  | cons p rest ih =>
      intro hnd h
      simp only [List.map_cons, List.nodup_cons] at hnd
      simp only [List.map_cons, appendAllF, List.foldl_cons, ddAppend,
        if_pos rfl]
      have hne : ∀ q ∈ rest, ¬ q.1 = p.1 := by
        intro q hq hq1
        exact hnd.1 (hq1 ▸ List.mem_map_of_mem Prod.fst hq)
      rw [show (fun (d2 : Dict (List FVal)) (q : String × String) =>
            ddAppend d2 q.1 (g q.2)) = (fun d2 q => ddAppend d2 q.1 (g q.2))
          from rfl]
      calc List.foldl (fun d2 q => ddAppend d2 q.1 (g q.2))
            ((p.1, h p ++ [g p.2]) :: rest.map (fun q => (q.1, h q))) rest
          = appendAllF rest g
              ((p.1, h p ++ [g p.2]) :: rest.map (fun q => (q.1, h q))) := rfl
        _ = (p.1, h p ++ [g p.2]) :: appendAllF rest g
              (rest.map (fun q => (q.1, h q))) :=
            appendAllF_head_ne g p.1 (h p ++ [g p.2]) rest _ hne
        _ = (p.1, h p ++ [g p.2]) :: rest.map (fun q => (q.1, h q ++ [g q.2])) := by
            rw [ih hnd.2 h]

theorem foldl_appendAllF_full (mtf : Dict String)
    (hnd : (mtf.map Prod.fst).Nodup) :
    ∀ (cs : List (String → FVal)) (h : String × String → List FVal),
      cs.foldl (fun d g => appendAllF mtf g d) (mtf.map (fun p => (p.1, h p)))
        = mtf.map (fun p => (p.1, h p ++ cs.map (fun g => g p.2))) := by
  intro cs
  induction cs with
  | nil =>
      intro h
      simp
  | cons g rest ih =>
      intro h
      simp only [List.foldl_cons]
      rw [appendAllF_full_map g mtf hnd h]
      rw [ih (fun p => h p ++ [g p.2])]
      apply List.map_congr_left
      intro p _
      simp

theorem foldl_appendAllF_shape (mtf : Dict String)
    (hnd : (mtf.map Prod.fst).Nodup) (cs : List (String → FVal)) :
    cs.foldl (fun d g => appendAllF mtf g d) []
      = if cs.isEmpty then []
        else mtf.map (fun p => (p.1, cs.map (fun g => g p.2))) := by
  cases cs with
  | nil => rfl
  | cons g rest =>
      simp only [List.isEmpty_cons, if_false, Bool.false_eq_true]
      simp only [List.foldl_cons]
      rw [appendAllF_nil_dict g mtf hnd]
      rw [foldl_appendAllF_full mtf hnd rest (fun p => [g p.2])]
      apply List.map_congr_left
      intro p _
      simp

theorem keys_assocSet_subset {α : Type} {d : Dict α} {k x : String} {v : α}
    (h : x ∈ (assocSet d k v).map Prod.fst) : x ∈ d.map Prod.fst ∨ x = k := by
  rcases List.mem_map.mp h with ⟨p, hp, hx⟩
  rcases mem_assocSet hp with h2 | h2
  · exact Or.inl (hx ▸ List.mem_map_of_mem Prod.fst h2)
  · right
    rw [← hx, h2]

theorem nodup_keys_assocSet {α : Type} {k : String} {v : α} :
    ∀ {d : Dict α}, (d.map Prod.fst).Nodup →
      ((assocSet d k v).map Prod.fst).Nodup := by
  intro d
  induction d with
  | nil => intro _; simp [assocSet]
  | cons p rest ih =>
      intro hnd
      obtain ⟨k2, v2⟩ := p
      simp only [List.map_cons, List.nodup_cons] at hnd
      by_cases h2 : k2 = k
      · simp only [assocSet, if_pos h2, List.map_cons, List.nodup_cons]
        exact ⟨h2 ▸ hnd.1, hnd.2⟩
      · simp only [assocSet, if_neg h2, List.map_cons, List.nodup_cons]
        constructor
        · intro hmem
          rcases keys_assocSet_subset hmem with h3 | h3
          · exact hnd.1 h3
          · exact h2 h3
        · exact ih hnd.2

theorem mkMetricToFunc_keys_nodup (metrics : List String) (mbr : Bool) :
    ((mkMetricToFunc metrics mbr).map Prod.fst).Nodup := by
  have gen : ∀ (l : List String) (d : Dict String), (d.map Prod.fst).Nodup →
      ((l.foldl (fun d2 m => assocSet d2 (metricKey mbr m) m) d).map
        Prod.fst).Nodup := by
    intro l
    induction l with
    | nil => intro d hd; simpa using hd
    | cons x rest ih =>
        intro d hd
        simp only [List.foldl_cons]
        exact ih _ (nodup_keys_assocSet hd)
  exact gen metrics [] (by simp)

theorem mkMetricToFunc_entry (metrics : List String) (mbr : Bool) :
    ∀ p ∈ mkMetricToFunc metrics mbr,
      p.1 = metricKey mbr p.2 ∧ p.2 ∈ metrics := by
  have gen : ∀ (l : List String) (d : Dict String),
      (∀ p ∈ d, p.1 = metricKey mbr p.2 ∧ p.2 ∈ metrics) →
      (∀ m ∈ l, m ∈ metrics) →
      ∀ p ∈ l.foldl (fun d2 m => assocSet d2 (metricKey mbr m) m) d,
        p.1 = metricKey mbr p.2 ∧ p.2 ∈ metrics := by
    intro l
    induction l with
    | nil => intro d hd _; simpa using hd
    | cons x rest ih =>
        intro d hd hl
        simp only [List.foldl_cons]
        apply ih
        · intro p hp
          rcases mem_assocSet hp with h2 | h2
          · exact hd p h2
          · subst h2
            exact ⟨rfl, hl x (List.mem_cons_self x rest)⟩
        · intro m hm
          exact hl m (List.mem_cons_of_mem x hm)
  exact gen metrics [] (by simp) (fun m hm => hm)

theorem groupStep_empty_mtf (M : Resolver) (dt : String) (mbr hl : Bool)
    (vps : List (List PVal)) (vts : List (List ℚ)) (d : Dict (List FVal))
    (ls : LogState) (i : Nat) :
    groupStep M dt [] mbr hl vps vts (d, ls) i
      = (groupTouch dt vts vps i).map
          (fun _ => (d, logAll hl (groupWarnings dt mbr vts vps i) ls)) := by
  by_cases hdt : dt = "classification"
  · subst hdt
    cases hvt : getE vts i with
    | error e =>
        simp [groupStep, groupTouch, hvt, Bind.bind, Except.bind, Except.map]
    | ok vt =>
        cases hvp : getE vps i with
        | error e =>
            simp [groupStep, groupTouch, hvt, hvp, Bind.bind, Except.bind,
              Except.map]
        | ok vp =>
            have hvtD : vts[i]? = some vt := by
              rw [← List.get?_eq_getElem?]
              exact getE_eq_ok.mp hvt
            have hvpD : vps[i]? = some vp := by
              rw [← List.get?_eq_getElem?]
              exact getE_eq_ok.mp hvp
            by_cases h1 : (allEqB vt 0 || allEqB vt 1) = true
            · have h1o : allEqB vt 0 = true ∨ allEqB vt 1 = true := by
                simpa using h1
              by_cases h2 : (allPredEqB vp 0 || allPredEqB vp 1) = true
              · have h2o : allPredEqB vp 0 = true ∨ allPredEqB vp 1 = true := by
                  simpa using h2
                simp only [groupStep, groupTouch, groupWarnings, hvt, hvp,
                  h1, h2, Bind.bind, Except.bind, Pure.pure, Except.pure,
                  Except.map, appendAllF, List.foldl_nil, logAll]
                cases mbr <;> simp [info, hvtD, hvpD, h1, h2, h1o, h2o]
              · have h2o : ¬ (allPredEqB vp 0 = true ∨ allPredEqB vp 1 = true) := by
                  simpa using h2
                simp only [groupStep, groupTouch, groupWarnings, hvt, hvp,
                  h1, h2, Bind.bind, Except.bind, Pure.pure, Except.pure,
                  Except.map, appendAllF, List.foldl_nil, logAll]
                cases mbr <;> simp [info, hvtD, hvpD, h1, h2, h1o, h2o]
            · have h1o : ¬ (allEqB vt 0 = true ∨ allEqB vt 1 = true) := by
                simpa using h1
              by_cases h2 : (allPredEqB vp 0 || allPredEqB vp 1) = true
              · have h2o : allPredEqB vp 0 = true ∨ allPredEqB vp 1 = true := by
                  simpa using h2
                simp only [groupStep, groupTouch, groupWarnings, hvt, hvp,
                  h1, h2, Bind.bind, Except.bind, Pure.pure, Except.pure,
                  Except.map, appendAllF, List.foldl_nil, logAll]
                cases mbr <;> simp [info, hvtD, hvpD, h1, h2, h1o, h2o]
              · have h2o : ¬ (allPredEqB vp 0 = true ∨ allPredEqB vp 1 = true) := by
                  simpa using h2
                have hw : groupWarnings "classification" mbr vts vps i = [] := by
                  simp [groupWarnings, hvtD, hvpD, h1o, h2o]
                rw [hw]
                by_cases hlen : vt.length = 0
                · simp [groupStep, groupTail, groupTouch, hvt, hvp, h1, h2,
                    hlen, Bind.bind, Except.bind, Pure.pure, Except.pure,
                    Except.map, logAll]
                · simp [groupStep, groupTail, groupTouch, hvt, hvp, h1, h2,
                    hlen, appendMetricsM, Bind.bind, Except.bind, Pure.pure,
                    Except.pure, Except.map, logAll]
  · have hw : groupWarnings dt mbr vts vps i = [] := by
      simp [groupWarnings, hdt]
    rw [hw]
    cases hvt : getE vts i with
    | error e =>
        simp [groupStep, groupTail, groupTouch, hdt, hvt, Bind.bind,
          Except.bind, Except.map]
    | ok vt =>
        by_cases hlen : vt.length = 0
        · simp [groupStep, groupTail, groupTouch, hdt, hvt, hlen, Bind.bind,
            Except.bind, Pure.pure, Except.pure, Except.map, logAll]
        · cases hvp : getE vps i with
          | error e =>
              simp [groupStep, groupTail, groupTouch, hdt, hvt, hlen, hvp,
                Bind.bind, Except.bind, Except.map]
          | ok vp =>
              simp [groupStep, groupTail, groupTouch, hdt, hvt, hlen, hvp,
                appendMetricsM, Bind.bind, Except.bind, Pure.pure,
                Except.pure, Except.map, logAll]

theorem loop_empty_mtf (M : Resolver) (dt : String) (mbr hl : Bool)
    (vps : List (List PVal)) (vts : List (List ℚ)) :
    ∀ (n : Nat) (d0 : Dict (List FVal)) (ls0 : LogState),
      forRangeM (groupStep M dt [] mbr hl vps vts) (Except.ok (d0, ls0)) n
        = (touchUpTo dt vts vps n).map
            (fun _ => (d0, logAll hl (warnsUpTo dt mbr vts vps n) ls0)) := by
  intro n
  induction n with
  | zero =>
      intro d0 ls0
      simp [forRangeM, touchUpTo, warnsUpTo, logAll, Except.map]
  | succ n ih =>
      intro d0 ls0
      show (forRangeM _ _ n).bind _ = _
      rw [ih d0 ls0]
      cases ht : touchUpTo dt vts vps n with
      | error e =>
          simp [touchUpTo, ht, Except.map, Bind.bind, Except.bind]
      | ok u =>
          simp only [Except.map, Bind.bind, Except.bind]
          rw [groupStep_empty_mtf M dt mbr hl vps vts _ _ n]
          cases hg : groupTouch dt vts vps n with
          | error e =>
              simp [touchUpTo, ht, hg, Except.map, Bind.bind, Except.bind]
          | ok u2 =>
              simp [touchUpTo, warnsUpTo, ht, hg, Except.map, logAll,
                List.foldl_append, Bind.bind, Except.bind, Pure.pure,
                Except.pure]

/-- C6 (amended): in row-axis mode, whenever the loop completes, each metric
key present in the result of `_evaluate_predictions` maps to a sequence of
exactly one value — the skip-NaN mean (`nanmeanF`) of the per-item
contributed values — and the entries are exactly the suffixed metric keys
when at least one item contributed; when no item contributed (`cs` empty,
possible only for non-classification data), the mapping is empty, so the
metric has no row-axis entry at all rather than a `[NaN]` entry. -/
theorem C6_amended_row_axis (M : Resolver) (preds : List (List PVal))
    (targets : List (List (Option ℚ))) (nt : Nat) (metrics : List String)
    (dt : String) (hl : Bool) (ls0 : LogState) (hm : metrics ≠ [])
    (hp : ¬ preds.length = 0) (vps : List (List PVal)) (vts : List (List ℚ))
    (hs : select_valid_values preds targets nt true = Except.ok (vps, vts))
    (cs : List (String → FVal))
    (hc : contribsUpTo M dt vts vps preds.length = Except.ok cs) :
    _evaluate_predictions M preds targets nt metrics dt true hl ls0
      = Except.ok
          ((if cs.isEmpty then []
            else (mkMetricToFunc metrics true).map (fun p =>
              (p.1, [nanmeanF (cs.map (fun g => g p.2))]))),
           logAll hl (warnsUpTo dt true vts vps preds.length) ls0) := by
  rw [evalPred_characterization M preds targets nt metrics dt true hl ls0 hm hp]
  simp only [hs, Bind.bind, Except.bind, hc, Except.map, if_true]
  congr 2
  rw [foldl_appendAllF_shape _ (mkMetricToFunc_keys_nodup metrics true) cs]
  by_cases hcs : cs.isEmpty
  · simp [hcs]
  · simp [hcs, List.map_map, Function.comp]

/-- Witness for C6 (amended) at a concrete input. -/
theorem C6_amended_witness :
    _evaluate_predictions constMetric [[PVal.scalar (1/2)]] [[some 0]] 1
        ["auc"] "classification" true true ⟨[], []⟩
      = Except.ok
          ((if ([fun _ => FVal.nan] : List (String → FVal)).isEmpty then []
            else (mkMetricToFunc ["auc"] true).map (fun p =>
              (p.1, [nanmeanF (([fun _ => FVal.nan] : List (String → FVal)).map
                (fun g => g p.2))]))),
           logAll true (warnsUpTo "classification" true [[0]] [[PVal.scalar (1/2)]] 1)
             ⟨[], []⟩) :=
  C6_amended_row_axis constMetric [[PVal.scalar (1/2)]] [[some 0]] 1 ["auc"]
    "classification" true ⟨[], []⟩ (by simp) (by simp)
    [[PVal.scalar (1/2)]] [[0]] (by with_unfolding_all rfl)
    [fun _ => FVal.nan] (by with_unfolding_all rfl)

/-- C10: within one call of `_evaluate_predictions`, every metric key of the
returned mapping has a value sequence of the same length: each processed
group either appends one value under every key or nothing under any key, so
all sequences share the number of contributing groups (and the empty-grid
return uses `num_tasks` NaNs for every metric, while row-axis reduction
leaves singletons). -/
theorem C10_equal_lengths (M : Resolver) (preds : List (List PVal))
    (targets : List (List (Option ℚ))) (nt : Nat) (metrics : List String)
    (dt : String) (mbr hl : Bool) (ls0 : LogState)
    (res : Dict (List FVal)) (ls : LogState)
    (h : _evaluate_predictions M preds targets nt metrics dt mbr hl ls0
      = Except.ok (res, ls)) :
    ∀ k1 v1 k2 v2, (k1, v1) ∈ res → (k2, v2) ∈ res →
      v1.length = v2.length := by
  intro k1 v1 k2 v2 h1 h2
  by_cases hp : preds.length = 0
  · rw [_evaluate_predictions, if_pos hp] at h
    have hres : res = emptyResult metrics nt := by
      injection h with h3
      exact (congrArg Prod.fst h3).symm
    subst hres
    have e1 := emptyResult_vals (k1, v1) h1
    have e2 := emptyResult_vals (k2, v2) h2
    simp only at e1 e2
    rw [e1, e2]
  · by_cases hm : metrics = []
    · subst hm
      rw [_evaluate_predictions, if_neg hp] at h
      cases hs : select_valid_values preds targets nt mbr with
      | error e => simp [hs, Bind.bind, Except.bind] at h
      | ok vv =>
          obtain ⟨vps, vts⟩ := vv
          simp only [hs, Bind.bind, Except.bind] at h
          have hmtfnil : mkMetricToFunc [] mbr = [] := rfl
          rw [hmtfnil, loop_empty_mtf M dt mbr hl vps vts preds.length []
            ls0] at h
          cases ht : touchUpTo dt vts vps preds.length with
          | error e => rw [ht] at h; simp [Except.map] at h
          | ok u =>
              rw [ht] at h
              simp only [Except.map, Pure.pure, Except.pure] at h
              have hres : res = (if mbr then ([] : Dict (List FVal)).map
                  (fun p => (p.1, [nanmeanF p.2])) else []) := by
                cases mbr <;> simp_all
              rw [hres] at h1
              cases mbr <;> simp at h1
    · rw [evalPred_characterization M preds targets nt metrics dt mbr hl ls0
        hm hp] at h
      cases hs : select_valid_values preds targets nt mbr with
      | error e => rw [hs] at h; simp [Bind.bind, Except.bind] at h
      | ok vv =>
          rw [hs] at h
          simp only [Bind.bind, Except.bind] at h
          cases hc : contribsUpTo M dt vv.2 vv.1 preds.length with
          | error e => rw [hc] at h; simp [Except.map] at h
          | ok cs =>
              rw [hc] at h
              simp only [Except.map] at h
              injection h with h3
              have hres := (congrArg Prod.fst h3).symm
              simp only at hres
              rw [foldl_appendAllF_shape _
                (mkMetricToFunc_keys_nodup metrics mbr) cs] at hres
              by_cases hcs : cs.isEmpty
              · rw [if_pos hcs] at hres
                cases mbr <;> simp [hres] at h1
              · rw [if_neg hcs] at hres
                cases mbr with
                | false =>
                    simp only [if_false, Bool.false_eq_true] at hres
                    subst hres
                    rcases List.mem_map.mp h1 with ⟨p1, _, hv1⟩
                    rcases List.mem_map.mp h2 with ⟨p2, _, hv2⟩
                    have e1 : v1 = cs.map (fun g => g p1.2) :=
                      (congrArg Prod.snd hv1).symm
                    have e2 : v2 = cs.map (fun g => g p2.2) :=
                      (congrArg Prod.snd hv2).symm
                    rw [e1, e2]
                    simp
                | true =>
                    simp only [if_true] at hres
                    subst hres
                    rcases List.mem_map.mp h1 with ⟨p1, _, hv1⟩
                    rcases List.mem_map.mp h2 with ⟨p2, _, hv2⟩
                    have e1 : v1 = [nanmeanF p1.2] :=
                      (congrArg Prod.snd hv1).symm
                    have e2 : v2 = [nanmeanF p2.2] :=
                      (congrArg Prod.snd hv2).symm
                    rw [e1, e2]
                    rfl

/-- Witness for C10 at a concrete input. -/
theorem C10_equal_lengths_witness :
    ([FVal.num 0] : List FVal).length = ([FVal.num 0, FVal.num 0] : List FVal).length - 1 ∨
    ([FVal.num 0] : List FVal).length = ([FVal.num 0] : List FVal).length :=
  Or.inr (C10_equal_lengths constMetric [[PVal.scalar 2]] [[some 1]] 1
    ["auc", "rmse"] "regression" false true ⟨[], []⟩
    [("auc", [FVal.num 0]), ("rmse", [FVal.num 0])] ⟨[], []⟩
    (by with_unfolding_all rfl) "auc" [FVal.num 0] "rmse" [FVal.num 0]
    (by simp) (by simp))

/-- The numeric result (and error behaviour) of `_evaluate_predictions` does
not depend on the logger flag or on the incoming log state: those only select
where warning text is routed. -/
theorem evalPred_dict_logger_free (M : Resolver) (preds : List (List PVal))
    (targets : List (List (Option ℚ))) (nt : Nat) (metrics : List String)
    (dt : String) (mbr : Bool) (hl1 hl2 : Bool) (ls1 ls2 : LogState) :
    (_evaluate_predictions M preds targets nt metrics dt mbr hl1 ls1).map
        Prod.fst
      = (_evaluate_predictions M preds targets nt metrics dt mbr hl2 ls2).map
        Prod.fst := by
  by_cases hp : preds.length = 0
  · simp [_evaluate_predictions, hp, Except.map]
  · by_cases hm : metrics = []
    · subst hm
      rw [_evaluate_predictions, if_neg hp, _evaluate_predictions, if_neg hp]
      cases hs : select_valid_values preds targets nt mbr with
      | error e => simp [hs, Bind.bind, Except.bind, Except.map]
      | ok vv =>
          obtain ⟨vps, vts⟩ := vv
          simp only [hs, Bind.bind, Except.bind]
          have hmtfnil : mkMetricToFunc [] mbr = [] := rfl
          rw [hmtfnil, loop_empty_mtf M dt mbr hl1 vps vts preds.length [] ls1,
            loop_empty_mtf M dt mbr hl2 vps vts preds.length [] ls2]
          cases touchUpTo dt vts vps preds.length <;>
            simp [Except.map, Pure.pure, Except.pure]
    · rw [evalPred_characterization M preds targets nt metrics dt mbr hl1 ls1
        hm hp, evalPred_characterization M preds targets nt metrics dt mbr hl2
        ls2 hm hp]
      cases hs : select_valid_values preds targets nt mbr with
      | error e => simp [Bind.bind, Except.bind, Except.map]
      | ok vv =>
          simp only [Bind.bind, Except.bind]
          cases contribsUpTo M dt vv.2 vv.1 preds.length <;>
            simp [Except.map, Pure.pure, Except.pure]

/-- C9: two runs of `evaluate_predictions` that differ only in the logger
argument (present vs absent, modelled by the boolean sink selector) return
identical numeric Result Mappings, and fail identically; the logger
influences only where warning text is emitted. -/
theorem C9_logger_independent (M : Resolver) (preds : List (List PVal))
    (targets : List (List (Option ℚ))) (nt : Nat) (metrics : List String)
    (dt : String) (mbr : Bool) (hl1 hl2 : Bool) :
    (evaluate_predictions M preds targets nt metrics dt mbr hl1).map Prod.fst
      = (evaluate_predictions M preds targets nt metrics dt mbr hl2).map
        Prod.fst := by
  have h1 := evalPred_dict_logger_free M preds targets nt metrics dt false
    hl1 hl2 ⟨[], []⟩ ⟨[], []⟩
  cases ha : _evaluate_predictions M preds targets nt metrics dt false hl1
      ⟨[], []⟩ with
  | error e =>
      cases hb : _evaluate_predictions M preds targets nt metrics dt false hl2
          ⟨[], []⟩ with
      | error e2 =>
          rw [ha, hb] at h1
          simp only [Except.map] at h1
          injection h1 with he
          subst he
          simp [evaluate_predictions, ha, hb, Bind.bind, Except.bind,
            Except.map]
      | ok r2 =>
          rw [ha, hb] at h1
          simp [Except.map] at h1
  | ok r1 =>
      cases hb : _evaluate_predictions M preds targets nt metrics dt false hl2
          ⟨[], []⟩ with
      | error e2 =>
          rw [ha, hb] at h1
          simp [Except.map] at h1
      | ok r2 =>
          rw [ha, hb] at h1
          simp only [Except.map] at h1
          injection h1 with hr
          obtain ⟨d1, l1⟩ := r1
          obtain ⟨d2, l2⟩ := r2
          simp only at hr
          subst hr
          cases mbr with
          | false =>
              simp [evaluate_predictions, ha, hb, Bind.bind, Except.bind,
                Pure.pure, Except.pure, Except.map]
          | true =>
              have h2 := evalPred_dict_logger_free M preds targets nt metrics
                dt true hl1 hl2 l1 l2
              cases hc : _evaluate_predictions M preds targets nt metrics dt
                  true hl1 l1 with
              | error e =>
                  cases hd : _evaluate_predictions M preds targets nt metrics
                      dt true hl2 l2 with
                  | error e2 =>
                      rw [hc, hd] at h2
                      simp only [Except.map] at h2
                      injection h2 with he
                      subst he
                      simp [evaluate_predictions, ha, hb, hc, hd, Bind.bind,
                        Except.bind, Except.map]
                  | ok r4 =>
                      rw [hc, hd] at h2
                      simp [Except.map] at h2
              | ok r3 =>
                  cases hd : _evaluate_predictions M preds targets nt metrics
                      dt true hl2 l2 with
                  | error e2 =>
                      rw [hc, hd] at h2
                      simp [Except.map] at h2
                  | ok r4 =>
                      rw [hc, hd] at h2
                      simp only [Except.map] at h2
                      injection h2 with hr2
                      obtain ⟨d3, l3⟩ := r3
                      obtain ⟨d4, l4⟩ := r4
                      simp only at hr2
                      subst hr2
                      simp [evaluate_predictions, ha, hb, hc, hd, Bind.bind,
                        Except.bind, Pure.pure, Except.pure, Except.map]

theorem keys_emptyResult {metrics : List String} {nt : Nat} {x : String}
    (h : x ∈ (emptyResult metrics nt).map Prod.fst) : x ∈ metrics := by
  have gen : ∀ (l : List String) (d : Dict (List FVal)),
      (∀ y ∈ d.map Prod.fst, y ∈ metrics) → (∀ m ∈ l, m ∈ metrics) →
      ∀ y ∈ (l.foldl (fun d2 m =>
          assocSet d2 m (List.replicate nt FVal.nan)) d).map Prod.fst,
        y ∈ metrics := by
    intro l
    induction l with
    | nil => intro d hd _; simpa using hd
    | cons m rest ih =>
        intro d hd hl y hy
        refine ih _ ?_ (fun m2 hm2 => hl m2 (List.mem_cons_of_mem m hm2)) y hy
        intro y2 hy2
        rcases keys_assocSet_subset hy2 with h2 | h2
        · exact hd y2 h2
        · exact h2 ▸ hl m (List.mem_cons_self m rest)
  exact gen metrics [] (by simp) (fun m hm => hm) x h

theorem keys_dictUpdate {α : Type} {x : String} :
    ∀ {d2 d1 : Dict α}, x ∈ (dictUpdate d1 d2).map Prod.fst →
      x ∈ d1.map Prod.fst ∨ x ∈ d2.map Prod.fst := by
  intro d2
  induction d2 with
  | nil => intro d1 h; exact Or.inl (by simpa [dictUpdate] using h)
  | cons q rest ih =>
      intro d1 h
      simp only [dictUpdate, List.foldl_cons] at h
      rcases ih h with h2 | h2
      · rcases keys_assocSet_subset h2 with h3 | h3
        · exact Or.inl h3
        · exact Or.inr (by simp [h3])
      · exact Or.inr (by simp [h2])

theorem keys_evalPred {M : Resolver} {preds : List (List PVal)}
    {targets : List (List (Option ℚ))} {nt : Nat} {metrics : List String}
    {dt : String} {mbr hl : Bool} {ls0 : LogState} {res : Dict (List FVal)}
    {ls : LogState}
    (h : _evaluate_predictions M preds targets nt metrics dt mbr hl ls0
      = Except.ok (res, ls)) :
    ∀ x ∈ res.map Prod.fst,
      x ∈ metrics ∨ ∃ m ∈ metrics, x = metricKey mbr m := by
  intro x hx
  by_cases hp : preds.length = 0
  · rw [_evaluate_predictions, if_pos hp] at h
    have hres : res = emptyResult metrics nt := by
      injection h with h3
      exact (congrArg Prod.fst h3).symm
    subst hres
    exact Or.inl (keys_emptyResult hx)
  · by_cases hm : metrics = []
    · subst hm
      rw [_evaluate_predictions, if_neg hp] at h
      cases hs : select_valid_values preds targets nt mbr with
      | error e => simp [hs, Bind.bind, Except.bind] at h
      | ok vv =>
          obtain ⟨vps, vts⟩ := vv
          simp only [hs, Bind.bind, Except.bind] at h
          have hmtfnil : mkMetricToFunc [] mbr = [] := rfl
          rw [hmtfnil, loop_empty_mtf M dt mbr hl vps vts preds.length []
            ls0] at h
          cases ht : touchUpTo dt vts vps preds.length with
          | error e => rw [ht] at h; simp [Except.map] at h
          | ok u =>
              rw [ht] at h
              simp only [Except.map, Pure.pure, Except.pure] at h
              have hres : res = (if mbr then ([] : Dict (List FVal)).map
                  (fun p => (p.1, [nanmeanF p.2])) else []) := by
                cases mbr <;> simp_all
              rw [hres] at hx
              cases mbr <;> simp at hx
    · rw [evalPred_characterization M preds targets nt metrics dt mbr hl ls0
        hm hp] at h
      cases hs : select_valid_values preds targets nt mbr with
      | error e => rw [hs] at h; simp [Bind.bind, Except.bind] at h
      | ok vv =>
          rw [hs] at h
          simp only [Bind.bind, Except.bind] at h
          cases hc : contribsUpTo M dt vv.2 vv.1 preds.length with
          | error e => rw [hc] at h; simp [Except.map] at h
          | ok cs =>
              rw [hc] at h
              simp only [Except.map] at h
              injection h with h3
              have hres := (congrArg Prod.fst h3).symm
              simp only at hres
              rw [foldl_appendAllF_shape _
                (mkMetricToFunc_keys_nodup metrics mbr) cs] at hres
              by_cases hcs : cs.isEmpty
              · rw [if_pos hcs] at hres
                rw [hres] at hx
                cases mbr <;> simp at hx
              · rw [if_neg hcs] at hres
                have hkeys : x ∈ (mkMetricToFunc metrics mbr).map Prod.fst := by
                  rw [hres] at hx
                  cases mbr with
                  | false =>
                      simp only [if_false, Bool.false_eq_true] at hx
                      rcases List.mem_map.mp hx with ⟨p, hp2, hx2⟩
                      rcases List.mem_map.mp hp2 with ⟨q, hq, hp3⟩
                      rw [← hx2, ← hp3]
                      exact List.mem_map_of_mem Prod.fst hq
                  | true =>
                      simp only [if_true] at hx
                      rcases List.mem_map.mp hx with ⟨p, hp2, hx2⟩
                      rcases List.mem_map.mp hp2 with ⟨p2, hp3, hpe⟩
                      rcases List.mem_map.mp hp3 with ⟨q, hq, hp4⟩
                      rw [← hx2, ← hpe, ← hp4]
                      simpa using List.mem_map_of_mem Prod.fst hq
                rcases List.mem_map.mp hkeys with ⟨p, hp2, hx2⟩
                obtain ⟨hkey, hmem⟩ := mkMetricToFunc_entry metrics mbr p hp2
                exact Or.inr ⟨p.2, hmem, by rw [← hx2, hkey]⟩

/-- C3 (amended): every key of the Result Mapping returned by
`evaluate_predictions` is one of the requested metric names, or — only when
`metric_by_row` is true — a requested name suffixed with `"-by-row"`.  The
converse inclusion fails (see the counterexample): a requested key is absent
when no group contributed a value, and with an empty Prediction Grid the
row-axis pass returns unsuffixed keys, so no `"-by-row"` key appears. -/
theorem C3_amended_keys (M : Resolver) (preds : List (List PVal))
    (targets : List (List (Option ℚ))) (nt : Nat) (metrics : List String)
    (dt : String) (mbr hl : Bool) (res : Dict (List FVal)) (ls : LogState)
    (h : evaluate_predictions M preds targets nt metrics dt mbr hl
      = Except.ok (res, ls)) :
    ∀ x ∈ res.map Prod.fst,
      x ∈ metrics ∨ (mbr = true ∧ ∃ m ∈ metrics, x = m ++ "-by-row") := by
  intro x hx
  cases ha : _evaluate_predictions M preds targets nt metrics dt false hl
      ⟨[], []⟩ with
  | error e =>
      simp [evaluate_predictions, ha, Bind.bind, Except.bind] at h
  | ok r1 =>
      obtain ⟨d1, l1⟩ := r1
      cases mbr with
      | false =>
          simp only [evaluate_predictions, ha, Bind.bind, Except.bind,
            Pure.pure, Except.pure] at h
          injection h with h3
          have hres : res = d1 := (congrArg Prod.fst h3).symm
          subst hres
          rcases keys_evalPred ha x hx with h2 | ⟨m, hm, h2⟩
          · exact Or.inl h2
          · left
            rw [h2]
            simpa [metricKey] using hm
      | true =>
          cases hb : _evaluate_predictions M preds targets nt metrics dt true
              hl l1 with
          | error e =>
              simp [evaluate_predictions, ha, hb, Bind.bind, Except.bind] at h
          | ok r2 =>
              obtain ⟨d2, l2⟩ := r2
              simp only [evaluate_predictions, ha, hb, Bind.bind, Except.bind,
                Pure.pure, Except.pure] at h
              injection h with h3
              have hres : res = dictUpdate d1 d2 := (congrArg Prod.fst h3).symm
              subst hres
              rcases keys_dictUpdate hx with h2 | h2
              · rcases keys_evalPred ha x h2 with h3 | ⟨m, hm, h3⟩
                · exact Or.inl h3
                · left
                  rw [h3]
                  simpa [metricKey] using hm
              · rcases keys_evalPred hb x h2 with h3 | ⟨m, hm, h3⟩
                · exact Or.inl h3
                · exact Or.inr ⟨rfl, m, hm, by simpa [metricKey] using h3⟩

/-- Witness for C3 (amended) at a concrete input. -/
theorem C3_amended_witness :
    "auc-by-row" ∈ ["auc"] ∨
      (true = true ∧ ∃ m ∈ ["auc"], "auc-by-row" = m ++ "-by-row") :=
  C3_amended_keys constMetric [[PVal.scalar 2]] [[some 1]] 1 ["auc"]
    "regression" true true
    [("auc", [FVal.num 0]), ("auc-by-row", [FVal.num 0])] ⟨[], []⟩
    (by with_unfolding_all rfl) "auc-by-row" (by simp)

/-! ## C2: error behaviour of `select_valid_values` on mis-shaped grids -/

theorem getE_error {α : Type} {l : List α} {i : Nat} {e : Err}
    (h : getE l i = Except.error e) : e = Err.indexError := by
  unfold getE at h
  cases hg : l.get? i with
  | some x =>
      rw [hg] at h
      simp at h
  | none =>
      rw [hg] at h
      injection h with h2
      exact h2.symm

theorem svvStep_error_only {preds : List (List PVal)}
    {targets : List (List (Option ℚ))} {mbr : Bool} {i j : Nat}
    {st : List (List PVal) × List (List ℚ)} {e : Err}
    (h : svvStep preds targets mbr i st j = Except.error e) :
    e = Err.indexError := by
  cases h1 : getE targets j with
  | error e1 =>
      rw [svvStep] at h
      simp only [h1, Bind.bind, Except.bind] at h
      injection h with h2
      exact h2 ▸ getE_error h1
  | ok trow =>
      cases h2 : getE trow i with
      | error e2 =>
          rw [svvStep] at h
          simp only [h1, h2, Bind.bind, Except.bind] at h
          injection h with h3
          exact h3 ▸ getE_error h2
      | ok tcell =>
          cases tcell with
          | none =>
              rw [svvStep] at h
              simp [h1, h2, Bind.bind, Except.bind, Pure.pure,
                Except.pure] at h
          | some t =>
              cases h3 : getE preds j with
              | error e3 =>
                  rw [svvStep] at h
                  simp only [h1, h2, h3, Bind.bind, Except.bind] at h
                  injection h with h4
                  exact h4 ▸ getE_error h3
              | ok prow =>
                  cases h4 : getE prow i with
                  | error e4 =>
                      rw [svvStep] at h
                      simp only [h1, h2, h3, h4, Bind.bind, Except.bind] at h
                      injection h with h5
                      exact h5 ▸ getE_error h4
                  | ok pcell =>
                      rw [svvStep] at h
                      simp [h1, h2, h3, h4, Bind.bind, Except.bind, Pure.pure,
                        Except.pure] at h

theorem forRangeM_error_only {σ : Type} (step : σ → Nat → Except Err σ)
    (e : Err) :
    ∀ (n : Nat), (∀ st k e2, k < n → step st k = Except.error e2 → e2 = e) →
    ∀ (init : σ) (e2 : Err),
      forRangeM step (Except.ok init) n = Except.error e2 → e2 = e := by
  intro n
  induction n with
  | zero =>
      intro _ init e2 h
      simp [forRangeM] at h
  | succ n ih =>
      intro herr init e2 h
      rw [show forRangeM step (Except.ok init) (n + 1)
          = (forRangeM step (Except.ok init) n).bind (fun st => step st n)
        from rfl] at h
      cases hf : forRangeM step (Except.ok init) n with
      | error e3 =>
          rw [hf] at h
          simp only [Except.bind] at h
          injection h with h2
          exact h2 ▸ ih (fun st k e4 hk => herr st k e4 (Nat.lt_succ_of_lt hk))
            init e3 hf
      | ok st =>
          rw [hf] at h
          simp only [Except.bind] at h
          exact herr st n e2 (Nat.lt_succ_self n) h

theorem forRangeM_error_exists {σ : Type} (step : σ → Nat → Except Err σ)
    (e : Err) :
    ∀ (n : Nat), (∀ st k e2, k < n → step st k = Except.error e2 → e2 = e) →
    ∀ k, k < n → (∀ st, step st k = Except.error e) →
    ∀ (init : σ), forRangeM step (Except.ok init) n = Except.error e := by
  intro n
  induction n with
  | zero =>
      intro _ k hk
      exact absurd hk (Nat.not_lt_zero k)
  | succ n ih =>
      intro herr k hk hstep init
      show (forRangeM step (Except.ok init) n).bind _ = _
      by_cases hkn : k = n
      · rw [hkn] at hstep
        cases hf : forRangeM step (Except.ok init) n with
        | error e3 =>
            have he3 : e3 = e := forRangeM_error_only step e n
              (fun st k2 e2 h2 => herr st k2 e2 (Nat.lt_succ_of_lt h2))
              init e3 hf
            simp [Except.bind, he3]
        | ok st => simp [Except.bind, hstep st]
      · have hk2 : k < n := Nat.lt_of_le_of_ne (Nat.le_of_lt_succ hk) hkn
        rw [ih (fun st k2 e2 h2 => herr st k2 e2 (Nat.lt_succ_of_lt h2))
          k hk2 hstep init]
        rfl

theorem svvStep_error_missing_row {preds : List (List PVal)}
    {targets : List (List (Option ℚ))} {mbr : Bool} {i j : Nat}
    (hj : targets.length ≤ j) (st : List (List PVal) × List (List ℚ)) :
    svvStep preds targets mbr i st j = Except.error Err.indexError := by
  have hg : targets.get? j = none := List.get?_eq_none.mpr hj
  have he : getE targets j = Except.error Err.indexError := by
    unfold getE
    rw [hg]
  rw [svvStep]
  simp [he, Bind.bind, Except.bind]

theorem svvStep_error_narrow_row {preds : List (List PVal)}
    {targets : List (List (Option ℚ))} {mbr : Bool} {i j : Nat}
    (hj : j < targets.length) (hi : (targets.getD j []).length ≤ i)
    (st : List (List PVal) × List (List ℚ)) :
    svvStep preds targets mbr i st j = Except.error Err.indexError := by
  obtain ⟨trow, htrow⟩ := getE_ok_of_lt hj
  have htrowD : targets.getD j [] = trow := getD_of_getE [] htrow
  have hg : trow.get? i = none := List.get?_eq_none.mpr (htrowD ▸ hi)
  have he : getE trow i = Except.error Err.indexError := by
    unfold getE
    rw [hg]
  rw [svvStep]
  simp [htrow, he, Bind.bind, Except.bind]

theorem select_error_short_targets (preds : List (List PVal))
    (targets : List (List (Option ℚ))) (nt : Nat) (mbr : Bool)
    (hnt : 1 ≤ nt) (hshort : targets.length < preds.length) :
    select_valid_values preds targets nt mbr = Except.error Err.indexError := by
  have hinner : ∀ (i : Nat) (st : List (List PVal) × List (List ℚ)),
      forRangeM (fun st2 j => svvStep preds targets mbr i st2 j)
        (Except.ok st) preds.length = Except.error Err.indexError := by
    intro i st
    refine forRangeM_error_exists _ Err.indexError preds.length ?_
      targets.length hshort ?_ st
    · intro st2 j2 e2 _ h
      exact svvStep_error_only h
    · intro st2
      exact svvStep_error_missing_row (Nat.le_refl targets.length) st2
  refine forRangeM_error_exists _ Err.indexError nt ?_ 0 hnt ?_ _
  · intro st k e2 _ h
    refine forRangeM_error_only _ Err.indexError preds.length ?_ st e2 h
    intro st2 j2 e3 _ h2
    exact svvStep_error_only h2
  · intro st
    exact hinner 0 st

theorem select_error_narrow_target_row (preds : List (List PVal))
    (targets : List (List (Option ℚ))) (nt : Nat) (mbr : Bool) (j : Nat)
    (hjp : j < preds.length) (hjt : j < targets.length)
    (hw : (targets.getD j []).length < nt) :
    select_valid_values preds targets nt mbr = Except.error Err.indexError := by
  have hinner : ∀ (st : List (List PVal) × List (List ℚ)),
      forRangeM (fun st2 j2 => svvStep preds targets mbr
          (targets.getD j []).length st2 j2)
        (Except.ok st) preds.length = Except.error Err.indexError := by
    intro st
    refine forRangeM_error_exists _ Err.indexError preds.length ?_ j hjp ?_ st
    · intro st2 j2 e2 _ h
      exact svvStep_error_only h
    · intro st2
      exact svvStep_error_narrow_row hjt
        (Nat.le_refl (targets.getD j []).length) st2
  refine forRangeM_error_exists _ Err.indexError nt ?_
    (targets.getD j []).length hw ?_ _
  · intro st k e2 _ h
    refine forRangeM_error_only _ Err.indexError preds.length ?_ st e2 h
    intro st2 j2 e3 _ h2
    exact svvStep_error_only h2
  · intro st
    exact hinner st

/-- C2 (amended): `select_valid_values` performs no shape validation and never
raises a dedicated shape error.  First conjunct: whenever `num_tasks` is at
most the width of every accessed row and the Target Grid has at least as many
items as the Prediction Grid, the call succeeds — in particular it succeeds
silently when `num_tasks` is strictly smaller than the grids' per-item width.
Second conjunct: for `num_tasks ≥ 1`, whenever the Target Grid has strictly
fewer items than the Prediction Grid, the call fails with a plain
`IndexError`, not a `ShapeError`.  Third conjunct: whenever some Target-Grid
row within the Prediction Grid's item range is narrower than `num_tasks`, the
call likewise fails with a plain `IndexError`. -/
theorem C2_amended_no_shape_check :
    (∀ (preds : List (List PVal)) (targets : List (List (Option ℚ)))
        (nt : Nat) (mbr : Bool),
      preds.length ≤ targets.length →
      (∀ j, j < preds.length →
        nt ≤ (targets.getD j []).length ∧ nt ≤ (preds.getD j []).length) →
      ∃ out, select_valid_values preds targets nt mbr = Except.ok out) ∧
    (∀ (preds : List (List PVal)) (targets : List (List (Option ℚ)))
        (nt : Nat) (mbr : Bool),
      1 ≤ nt → targets.length < preds.length →
      select_valid_values preds targets nt mbr
        = Except.error Err.indexError) ∧
    (∀ (preds : List (List PVal)) (targets : List (List (Option ℚ)))
        (nt : Nat) (mbr : Bool) (j : Nat),
      j < preds.length → j < targets.length →
      (targets.getD j []).length < nt →
      select_valid_values preds targets nt mbr
        = Except.error Err.indexError) := by
  refine ⟨?_, ?_, ?_⟩
  · intro preds targets nt mbr hlen hw
    apply forRangeM_ok
    intro st i hi
    apply forRangeM_ok
    intro st2 j hj
    exact svvStep_ok st2 hi hj hlen (hw j hj)
  · intro preds targets nt mbr hnt hshort
    exact select_error_short_targets preds targets nt mbr hnt hshort
  · intro preds targets nt mbr j hjp hjt hw
    exact select_error_narrow_target_row preds targets nt mbr j hjp hjt hw

/-- Witness for C2 (amended) at concrete inputs: a silent success with
`num_tasks = 1` against per-item width `2`; an `IndexError` against a Target
Grid with fewer items; and an `IndexError` against a Target-Grid row
narrower than `num_tasks`. -/
theorem C2_amended_witness :
    (∃ out, select_valid_values [[PVal.scalar 2, PVal.scalar 3]]
        [[some 1, some 0]] 1 false = Except.ok out) ∧
    select_valid_values [[PVal.scalar 2], [PVal.scalar 3]] [[some 1]] 1 true
      = Except.error Err.indexError ∧
    select_valid_values [[PVal.scalar 2, PVal.scalar 3]] [[some 1]] 2 false
      = Except.error Err.indexError :=
  ⟨C2_amended_no_shape_check.1 _ _ 1 false (by simp)
    (by
      intro j hj
      simp only [List.length_cons, List.length_nil] at hj
      have hj0 : j = 0 := by omega
      subst hj0
      exact ⟨by simp [List.getD], by simp [List.getD]⟩),
   C2_amended_no_shape_check.2.1 _ _ 1 true (by simp) (by simp),
   C2_amended_no_shape_check.2.2 _ _ 2 false 0 (by simp) (by simp)
     (by simp [List.getD])⟩
